import Mathlib

/-!
Shallow embedding of the memojs B+ tree (btree.ts) and verification of the
frozen claims about it.

The TypeScript source is an imperative, pointer based structure.  The
embedding represents the mutable object graph explicitly: every
LinkedNode, SortedLinkedList header, BPlusCell and BPlusNode lives in an
association-list heap keyed by a natural-number id, and every mutating
operation threads the whole state.  Allocation prepends a fresh id.
Loops of the source are translated with explicit fuel; a fuel value of
heap-size + 1 is enough for every acyclic chain, which is the only shape
the source ever builds.  JavaScript numbers used as integers are
translated as Int (JS % is truncated remainder, Int.tmod; Math.floor of a
division by 2 is Int.fdiv).  A thrown Error is an Except.error carrying
the message.
-/

set_option autoImplicit false


/-- Heap read: first binding of id i in an association list. -/
def hGet {B : Type} (h : List (Nat × B)) (i : Nat) : Option B :=
  match h with
  | [] => none
  | (j, v) :: t => if i = j then some v else hGet t i

/-- Heap write: replace the value bound to id i (no-op when i is absent). -/
def hMod {B : Type} (h : List (Nat × B)) (i : Nat) (f : B → B) : List (Nat × B) :=
  h.map (fun p => if p.1 = i then (p.1, f p.2) else p)

/-- The comparator convention of the source: negative, zero or positive. -/
def intCmp (a b : Int) : Int :=
  if a < b then -1 else if b < a then 1 else 0

/-- SearchType from btree.ts. -/
inductive SearchType where
  | LesserThanOrEqualsTo
  | EqualsTo
  | GreaterThanOrEqualsTo
  | LesserThan
  | GreaterThan
deriving DecidableEq, Repr

/-- LinkedNode of btree.ts: one doubly linked list node with a duplicate
counter.  Sibling pointers are heap ids. -/
structure LLNode (A : Type) where
  rightSibling : Option Nat := none
  leftSibling : Option Nat := none
  duplicate_count : Int := 0
  key : A
deriving Repr, DecidableEq

instance {A : Type} [Inhabited A] : Inhabited (LLNode A) := ⟨{ key := default }⟩

/-- SortedLinkedList of btree.ts: the header object (min, max, count). -/
structure LLHeader where
  min : Option Nat := none
  max : Option Nat := none
  count : Int := 0
deriving DecidableEq, Repr

instance : Inhabited LLHeader := ⟨{}⟩

/-- Heap of linked nodes and of list headers, with one fresh-id counter. -/
structure LLState (A : Type) where
  nodes : List (Nat × LLNode A) := []
  lists : List (Nat × LLHeader) := []
  fresh : Nat := 0
deriving Repr, DecidableEq

instance {A : Type} : Inhabited (LLState A) := ⟨{}⟩

/-- Read a linked node (total via Inhabited; ids never dangle in states the
source can build). -/
def lnodeOf {A : Type} [Inhabited A] (s : LLState A) (i : Nat) : LLNode A :=
  (hGet s.nodes i).getD default

/-- Read a list header (total via Inhabited). -/
def listOf {A : Type} (s : LLState A) (i : Nat) : LLHeader :=
  (hGet s.lists i).getD default

/-- Allocate a linked node, returning its id. -/
def allocLNode {A : Type} (s : LLState A) (nd : LLNode A) : Nat × LLState A :=
  (s.fresh, { s with nodes := (s.fresh, nd) :: s.nodes, fresh := s.fresh + 1 })

/-- Allocate a list header, returning its id. -/
def allocList {A : Type} (s : LLState A) (hd : LLHeader) : Nat × LLState A :=
  (s.fresh, { s with lists := (s.fresh, hd) :: s.lists, fresh := s.fresh + 1 })

/-- Update a linked node in place. -/
def modLNode {A : Type} (s : LLState A) (i : Nat) (f : LLNode A → LLNode A) : LLState A :=
  { s with nodes := hMod s.nodes i f }

/-- Update a list header in place. -/
def modList {A : Type} (s : LLState A) (i : Nat) (f : LLHeader → LLHeader) : LLState A :=
  { s with lists := hMod s.lists i f }

namespace LL

/-- The while loop of LL.search.  Walks the chain from the current node,
accumulating the lte candidate, and stopping with an eq or gte candidate
exactly as the source does.  Returns (eq, lte, gte). -/
def searchAux {A : Type} [Inhabited A] (s : LLState A) (cmp : A → A → Int)
    (searchKey : A) (searchType : SearchType) :
    Nat → Option Nat → Option Nat → Option Nat × Option Nat × Option Nat
  | 0, _, lte => (none, lte, none)
  | _ + 1, none, lte => (none, lte, none)
  | fuel + 1, some cur, lte =>
    let nd := lnodeOf s cur
    let compareResult := cmp searchKey nd.key
    if compareResult = 0 then
      if searchType = SearchType.GreaterThan then
        searchAux s cmp searchKey searchType fuel nd.rightSibling lte
      else
        (some cur, lte, none)
    else if compareResult > 0 then
      searchAux s cmp searchKey searchType fuel nd.rightSibling (some cur)
    else
      (none, lte, some cur)

/-- LL.search of btree.ts.  Pure read; returns the id of the found linked
node.  The fuel nodes-length + 1 covers every acyclic chain. -/
def search {A : Type} [Inhabited A] (s : LLState A) (cmp : A → A → Int)
    (listId : Nat) (searchKey : A) (searchType : SearchType) : Option Nat :=
  let hd := listOf s listId
  match hd.min with
  | none => none
  | some m =>
    let r := searchAux s cmp searchKey searchType (s.nodes.length + 1) (some m) none
    match searchType with
    | SearchType.LesserThanOrEqualsTo => r.1.or r.2.1
    | SearchType.EqualsTo => r.1
    | SearchType.GreaterThanOrEqualsTo => r.1.or r.2.2
    | SearchType.LesserThan => r.2.1
    | SearchType.GreaterThan => r.2.2

/-- LL.insert of btree.ts.  Returns the id of the linked node the source
returns (the fresh node, or the collided predecessor on key equality).
Note the duplicate branch of the source: it increments duplicate_count,
DECREMENTS count, overwrites the stored key, and returns before the final
count increment. -/
def insert {A : Type} [Inhabited A] (s : LLState A) (cmp : A → A → Int)
    (listId : Nat) (key : A) : Nat × LLState A :=
  let (newNode, s) := allocLNode s { key := key }
  let hd := listOf s listId
  match hd.min with
  | none =>
    let s := modList s listId (fun h => { h with min := some newNode, max := some newNode })
    let s := modList s listId (fun h => { h with count := h.count + 1 })
    (newNode, s)
  | some mn =>
    match search s cmp listId key SearchType.LesserThanOrEqualsTo with
    | none =>
      let s := modLNode s mn (fun n => { n with leftSibling := some newNode })
      let s := modLNode s newNode (fun n => { n with rightSibling := some mn })
      let s := modList s listId (fun h => { h with min := some newNode })
      let s := modList s listId (fun h => { h with count := h.count + 1 })
      (newNode, s)
    | some foundNode =>
      if cmp key (lnodeOf s foundNode).key = 0 then
        let s := modLNode s foundNode
          (fun n => { n with duplicate_count := n.duplicate_count + 1 })
        let s := modList s listId (fun h => { h with count := h.count - 1 })
        let s := modLNode s foundNode (fun n => { n with key := key })
        (foundNode, s)
      else
        let right_sibling := (lnodeOf s foundNode).rightSibling
        let s := modLNode s foundNode (fun n => { n with rightSibling := some newNode })
        let s := modLNode s newNode
          (fun n => { n with leftSibling := some foundNode, rightSibling := right_sibling })
        let s := match right_sibling with
          | some r => modLNode s r (fun n => { n with leftSibling := some newNode })
          | none => s
        let s := if hd.max = some foundNode then
            modList s listId (fun h => { h with max := some newNode })
          else s
        let s := modList s listId (fun h => { h with count := h.count + 1 })
        (newNode, s)

/-- LL.deleteNode of btree.ts.  On a hit it splices the node out, returns a
detached copy (fresh id carrying the key and duplicate_count) and lowers
count by 1 + duplicate_count; on a miss it returns none and changes
nothing. -/
def deleteNode {A : Type} [Inhabited A] (s : LLState A) (cmp : A → A → Int)
    (listId : Nat) (key : A) : Option Nat × LLState A :=
  match search s cmp listId key SearchType.EqualsTo with
  | none => (none, s)
  | some nodeToDelete =>
    let nd := lnodeOf s nodeToDelete
    let (deletedNode, s) := allocLNode s { key := nd.key, duplicate_count := nd.duplicate_count }
    let hd := listOf s listId
    let s :=
      if hd.count = 1 then
        modList s listId (fun h => { h with min := none, max := none })
      else
        let s :=
          if hd.min = some nodeToDelete then
            let s := modList s listId
              (fun h => { h with min := (lnodeOf s nodeToDelete).rightSibling })
            let s := match (lnodeOf s nodeToDelete).rightSibling with
              | some r => modLNode s r (fun n => { n with leftSibling := none })
              | none => s
            modLNode s nodeToDelete (fun n => { n with rightSibling := none })
          else if hd.max = some nodeToDelete then
            let s := modList s listId
              (fun h => { h with max := (lnodeOf s nodeToDelete).leftSibling })
            let s := match (lnodeOf s nodeToDelete).leftSibling with
              | some l => modLNode s l (fun n => { n with rightSibling := none })
              | none => s
            modLNode s nodeToDelete (fun n => { n with leftSibling := none })
          else s
        let left_sibling := (lnodeOf s nodeToDelete).leftSibling
        let right_sibling := (lnodeOf s nodeToDelete).rightSibling
        let s := match left_sibling with
          | some l => modLNode s l (fun n => { n with rightSibling := right_sibling })
          | none => s
        let s := match right_sibling with
          | some r => modLNode s r (fun n => { n with leftSibling := left_sibling })
          | none => s
        let s := modLNode s nodeToDelete
          (fun n => { n with leftSibling := none, rightSibling := none })
        s
    let s := modList s listId
      (fun h => { h with count := h.count - ((lnodeOf s deletedNode).duplicate_count + 1) })
    (some deletedNode, s)

/-- Advance an optional chain position one step to the right, as the
body of the for loop in LL.splitAt does. -/
def stepRight {A : Type} [Inhabited A] (s : LLState A) (o : Option Nat) : Option Nat :=
  match o with
  | none => none
  | some n => (lnodeOf s n).rightSibling

/-- LL.splitAt of btree.ts.  Cuts the chain after splitAfterIndex.  Returns
the ids of the left list (the mutated original) and the fresh right list.
Note the source order: listToSplit.max is overwritten with the max of the
left portion BEFORE rightPortion.max is copied from it. -/
def splitAt {A : Type} [Inhabited A] (s : LLState A) (listId : Nat)
    (splitAfterIndex : Int) : Except String (Nat × Nat × LLState A) :=
  let hd := listOf s listId
  if hd.count < 2 then
    Except.error "Size of List to be split must be at least 2"
  else if ¬ (splitAfterIndex < hd.count - 1) then
    if splitAfterIndex = hd.count - 1 then
      let (rightId, s) := allocList s {}
      Except.ok (listId, rightId, s)
    else
      Except.error "splitAtIndex must be less than listToSplit.count-1"
  else
    let origSize := hd.count
    let minOfRightPortion := (fun o => Nat.rec o (fun _ ih => stepRight s ih)
      (splitAfterIndex + 1).toNat) hd.min
    let maxOfLeftPortion := match minOfRightPortion with
      | some m => (lnodeOf s m).leftSibling
      | none => none
    let s := match maxOfLeftPortion with
      | some m => modLNode s m (fun n => { n with rightSibling := none })
      | none => s
    let s := match minOfRightPortion with
      | some m => modLNode s m (fun n => { n with leftSibling := none })
      | none => s
    let s := modList s listId
      (fun h => { h with count := splitAfterIndex + 1, max := maxOfLeftPortion })
    let (rightId, s) := allocList s
      { min := minOfRightPortion, max := (listOf s listId).max,
        count := origSize - splitAfterIndex - 1 }
    Except.ok (listId, rightId, s)

/-- LL.mergeSplittedRightIntoLeft of btree.ts. -/
def mergeSplittedRightIntoLeft {A : Type} [Inhabited A] (s : LLState A)
    (leftId rightId : Nat) : Nat × LLState A :=
  let rhd := listOf s rightId
  if rhd.count = 0 then (leftId, s)
  else
    let lhd := listOf s leftId
    let s := match lhd.max with
      | some m => modLNode s m (fun n => { n with rightSibling := rhd.min })
      | none => s
    let s := match rhd.min with
      | some m => modLNode s m (fun n => { n with leftSibling := lhd.max })
      | none => s
    let s := modList s leftId
      (fun h => { h with max := rhd.max, count := h.count + rhd.count })
    (leftId, s)

/-- LL.mergeSplittedLeftIntoRight of btree.ts. -/
def mergeSplittedLeftIntoRight {A : Type} [Inhabited A] (s : LLState A)
    (leftId rightId : Nat) : Nat × LLState A :=
  let lhd := listOf s leftId
  if lhd.count = 0 then (rightId, s)
  else
    let rhd := listOf s rightId
    let s := match lhd.max with
      | some m => modLNode s m (fun n => { n with rightSibling := rhd.min })
      | none => s
    let s := match rhd.min with
      | some m => modLNode s m (fun n => { n with leftSibling := lhd.max })
      | none => s
    let s := modList s rightId
      (fun h => { h with min := lhd.min, count := h.count + lhd.count })
    (rightId, s)

/-- The while loop of LL.searchTillStream: emit keys while the end key is
greater than or equal to the current key. -/
def sttLoop {A : Type} [Inhabited A] (s : LLState A) (cmp : A → A → Int)
    (endKey : A) (yieldIndividualDuplicates : Bool) :
    Nat → Option Nat → List A → List A
  | 0, _, acc => acc
  | _ + 1, none, acc => acc
  | fuel + 1, some cur, acc =>
    let nd := lnodeOf s cur
    if cmp endKey nd.key ≥ 0 then
      let copies := if yieldIndividualDuplicates then (nd.duplicate_count + 1).toNat else 1
      sttLoop s cmp endKey yieldIndividualDuplicates fuel nd.rightSibling
        (acc ++ List.replicate copies nd.key)
    else acc

/-- LL.searchTillStream of btree.ts.  Pure read.  In the tree the element
type is a cell object, so an absent bound is represented by none, matching
the falsy test of the source. -/
def searchTillStream {A : Type} [Inhabited A] (s : LLState A) (cmp : A → A → Int)
    (listId : Nat) (startKey endKey : Option A)
    (yieldIndividualDuplicates : Bool) : List A :=
  let hd := listOf s listId
  let currentNode := match startKey with
    | none => hd.min
    | some sk => search s cmp listId sk SearchType.GreaterThanOrEqualsTo
  let endNode := match endKey with
    | none => hd.max
    | some ek => search s cmp listId ek SearchType.LesserThanOrEqualsTo
  match endNode with
  | none => []
  | some en =>
    sttLoop s cmp (lnodeOf s en).key yieldIndividualDuplicates
      (s.nodes.length + 1) currentNode []

end LL

/-- BPlusCell of btree.ts.  right_child_node and parentNodeForRightChildNode
are BPlusNode ids; value is the optional payload. -/
structure Cell (K : Type) (V : Type) where
  key : K
  value : Option V := none
  right_child_node : Option Nat := none
  parentNodeForRightChildNode : Option Nat := none
deriving Repr, DecidableEq

instance {K : Type} {V : Type} [Inhabited K] : Inhabited (Cell K V) :=
  ⟨{ key := default }⟩

/-- BPlusNode of btree.ts.  cellsList is a list-header id; all other links
are node or cell ids.  The parent_tree field of the source is omitted:
it is written once and never read. -/
structure BNode where
  parent_cell : Option Nat := none
  rightSibling : Option Nat := none
  leftSibling : Option Nat := none
  parent_node : Option Nat := none
  cellsList : Nat
  left_most_child : Option Nat := none
  isLeaf : Bool := false
deriving Repr, DecidableEq

instance : Inhabited BNode := ⟨{ cellsList := 0 }⟩

/-- BPlusTree of btree.ts (the scalar fields; the node graph lives in the
state heaps). -/
structure TreeData where
  left_most_node : Option Nat := none
  right_most_node : Option Nat := none
  root_node : Option Nat := none
  size : Int := 0
  half_capacity : Int := 0
  max_node_size : Int := 0
deriving Repr, DecidableEq

instance : Inhabited TreeData := ⟨{}⟩

/-- The whole mutable world of one BPlusTree: linked nodes and list headers
(elements are cell ids), the cell heap, the node heap, and the tree
object.  cells and bnodes share the fresh counter. -/
structure BBState (K : Type) (V : Type) where
  ll : LLState Nat := {}
  cells : List (Nat × Cell K V) := []
  bnodes : List (Nat × BNode) := []
  tree : TreeData := {}
  fresh : Nat := 0
deriving Repr, DecidableEq

/-- The BPlusTree constructor: rejects exactly the sizes with
max_node_size % 2 === 1 under the truncated remainder of JavaScript, and
sets half_capacity = Math.floor(max_node_size / 2). -/
def mkBPlusTree (max_node_size : Int) : Except String TreeData :=
  if max_node_size.tmod 2 = 1 then
    Except.error "node_size for tree must be an even number"
  else
    Except.ok { max_node_size := max_node_size, half_capacity := max_node_size.fdiv 2 }

/-- Modelling a failed non-null property access of the source (reading a
field of undefined throws a TypeError). -/
def oget {B : Type} (o : Option B) : Except String B :=
  match o with
  | some b => Except.ok b
  | none => Except.error "TypeError"

def nodeOf {K : Type} {V : Type} (s : BBState K V) (i : Nat) : BNode :=
  (hGet s.bnodes i).getD default

def cellOf {K : Type} {V : Type} [Inhabited K] (s : BBState K V) (i : Nat) : Cell K V :=
  (hGet s.cells i).getD default

def modBNode {K : Type} {V : Type} (s : BBState K V) (i : Nat) (f : BNode → BNode) :
    BBState K V :=
  { s with bnodes := hMod s.bnodes i f }

def modCell {K : Type} {V : Type} (s : BBState K V) (i : Nat)
    (f : Cell K V → Cell K V) : BBState K V :=
  { s with cells := hMod s.cells i f }

/-- The comparator handed to the LL layer by the tree code: compare two
cell ids through their keys with the user comparator, reading the current
cell heap (the closure the source builds at each call site). -/
def cellCmp {K : Type} {V : Type} [Inhabited K] (s : BBState K V)
    (kcmp : K → K → Int) : Nat → Nat → Int :=
  fun c1 c2 => kcmp (cellOf s c1).key (cellOf s c2).key

/-- createBPlusCell of btree.ts. -/
def createBPlusCell {K : Type} {V : Type} (s : BBState K V) (key : K)
    (right_child_node parentNodeForRightChildNode : Option Nat) : Nat × BBState K V :=
  let cid := s.fresh
  let s := { s with
    cells := (cid, { key := key, right_child_node := right_child_node,
                     parentNodeForRightChildNode := parentNodeForRightChildNode }) :: s.cells,
    fresh := s.fresh + 1 }
  match right_child_node with
  | none => (cid, s)
  | some child =>
    let s := modBNode s child (fun nd => { nd with parent_cell := some cid })
    let s := modBNode s child (fun nd =>
      if nd.parent_node.isSome then { nd with parent_node := parentNodeForRightChildNode }
      else nd)
    (cid, s)

/-- createBPlusNode of btree.ts.  The cellsList initialized by the BPlusNode
class constructor is immediately replaced by a fresh one, so a single
header allocation is performed. -/
def createBPlusNode {K : Type} {V : Type} (s : BBState K V) (isLeaf : Bool)
    (parent_node left_most_child : Option Nat) : Nat × BBState K V :=
  let (lid, ls) := allocList s.ll {}
  let s := { s with ll := ls }
  let nid := s.fresh
  let s := { s with
    bnodes := (nid, { parent_node := parent_node, cellsList := lid,
                      left_most_child := left_most_child, isLeaf := isLeaf }) :: s.bnodes,
    fresh := s.fresh + 1 }
  match left_most_child with
  | some c =>
    (nid, modBNode s c (fun nd => { nd with parent_node := some nid, parent_cell := none }))
  | none => (nid, s)

/-- The while loop shared by setAsCellsList and
reinforceParentShipInChildNodes: for every cell in the chain, point its
right child back at the node. -/
def reparentLoop {K : Type} {V : Type} [Inhabited K] (s : BBState K V) (nid : Nat) :
    Nat → Option Nat → BBState K V
  | 0, _ => s
  | _ + 1, none => s
  | fuel + 1, some ln =>
    let cid := (lnodeOf s.ll ln).key
    let s2 := match (cellOf s cid).right_child_node with
      | some ch => modBNode s ch (fun nd => { nd with parent_node := some nid })
      | none => s
    reparentLoop s2 nid fuel (lnodeOf s2.ll ln).rightSibling

/-- setAsCellsList of btree.ts. -/
def setAsCellsList {K : Type} {V : Type} [Inhabited K] (s : BBState K V)
    (nid newListId : Nat) : BBState K V :=
  let s := if (nodeOf s nid).isLeaf = false then
      reparentLoop s nid (s.ll.nodes.length + 1) (listOf s.ll newListId).min
    else s
  modBNode s nid (fun nd => { nd with cellsList := newListId })

/-- reinforceParentShipInChildNodes of btree.ts. -/
def reinforceParentShipInChildNodes {K : Type} {V : Type} [Inhabited K]
    (s : BBState K V) (nid : Nat) : BBState K V :=
  if (nodeOf s nid).isLeaf = false then
    reparentLoop s nid (s.ll.nodes.length + 1) (listOf s.ll (nodeOf s nid).cellsList).min
  else s

/-- setAsLeftMostChildNode of btree.ts. -/
def setAsLeftMostChildNode {K : Type} {V : Type} (s : BBState K V)
    (nid childId : Nat) : BBState K V :=
  let s := modBNode s nid (fun nd => { nd with left_most_child := some childId })
  modBNode s childId (fun nd => { nd with parent_node := some nid, parent_cell := none })

/-- BalanceCase of btree.ts. -/
inductive BalanceCase where
  | DO_NOTHING
  | REMOVE_ROOT
  | SPLIT
  | DISTRIBUTE_RIGHT_INTO_NODE
  | DISTRIBUTE_LEFT_INTO_NODE
  | MERGE_RIGHT_INTO_NODE
  | MERGE_NODE_INTO_LEFT
deriving DecidableEq, Repr

/-- SOURCE_IS of btree.ts. -/
inductive SOURCE_IS where
  | LEFT_SIBLING
  | RIGHT_SIBLING
deriving DecidableEq, Repr

namespace BB

/-- BB._determineBalancingCase of btree.ts (pure read; the final throw is
unreachable on well-formed trees). -/
def determineBalancingCase {K : Type} {V : Type} (s : BBState K V)
    (effectedNode : Nat) : Except String BalanceCase :=
  let nd := nodeOf s effectedNode
  let node_size := (listOf s.ll nd.cellsList).count
  let half_capacity := s.tree.half_capacity
  if half_capacity ≤ node_size ∧ node_size ≤ s.tree.max_node_size then
    Except.ok BalanceCase.DO_NOTHING
  else if node_size > s.tree.max_node_size then
    Except.ok BalanceCase.SPLIT
  else
    let left_sibling_size := match nd.leftSibling with
      | some l => (listOf s.ll (nodeOf s l).cellsList).count
      | none => 0
    let right_sibling_size := match nd.rightSibling with
      | some r => (listOf s.ll (nodeOf s r).cellsList).count
      | none => 0
    if left_sibling_size = 0 ∧ right_sibling_size = 0 then
      if node_size = 0 then Except.ok BalanceCase.REMOVE_ROOT
      else Except.ok BalanceCase.DO_NOTHING
    else if right_sibling_size > half_capacity then
      Except.ok BalanceCase.DISTRIBUTE_RIGHT_INTO_NODE
    else if left_sibling_size > half_capacity then
      Except.ok BalanceCase.DISTRIBUTE_LEFT_INTO_NODE
    else if right_sibling_size > 0 then
      Except.ok BalanceCase.MERGE_RIGHT_INTO_NODE
    else if left_sibling_size > 0 then
      Except.ok BalanceCase.MERGE_NODE_INTO_LEFT
    else
      Except.error "NO BALANCE CASE found for effectedNode"

/-- The ancestor walk of BB.find_effective_parent_cell. -/
def fepcLoop {K : Type} {V : Type} (s : BBState K V) :
    Nat → Option Nat → Option Nat
  | 0, _ => none
  | _ + 1, none => none
  | fuel + 1, some cur =>
    match (nodeOf s cur).parent_cell with
    | some pc => some pc
    | none => fepcLoop s fuel (nodeOf s cur).parent_node

/-- BB.find_effective_parent_cell of btree.ts.  Returns a cell id. -/
def find_effective_parent_cell {K : Type} {V : Type} [Inhabited K]
    (s : BBState K V) (effectiveNode : Nat) : Except String Nat :=
  match (nodeOf s effectiveNode).parent_cell with
  | some pc => Except.ok pc
  | none =>
    match fepcLoop s (s.bnodes.length + 1) (some effectiveNode) with
    | some pc => Except.ok pc
    | none =>
      match (nodeOf s effectiveNode).parent_node with
      | some pn =>
        match (listOf s.ll (nodeOf s pn).cellsList).min with
        | some mn => Except.ok (lnodeOf s.ll mn).key
        | none => Except.error "Not allowed condition"
      | none => Except.error "Not allowed condition"

/-- One interior step of the descent loop of BB.searchForLeafNode: given
the current (interior) node, compute the child the loop moves to. -/
def descendStep {K : Type} {V : Type} [Inhabited K] (s : BBState K V)
    (kcmp : K → K → Int) (searchKey : Nat) (nd : BNode) : Option Nat :=
  match LL.search s.ll (cellCmp s kcmp) nd.cellsList searchKey
      SearchType.LesserThanOrEqualsTo with
  | none => nd.left_most_child
  | some foundCell =>
    let c := cellCmp s kcmp searchKey (lnodeOf s.ll foundCell).key
    if c = 0 then
      match (lnodeOf s.ll foundCell).leftSibling with
      | some ls => (cellOf s (lnodeOf s.ll ls).key).right_child_node
      | none => nd.left_most_child
    else
      (cellOf s (lnodeOf s.ll foundCell).key).right_child_node

/-- The while loop of BB.searchForLeafNode. -/
def descendLoop {K : Type} {V : Type} [Inhabited K] (s : BBState K V)
    (kcmp : K → K → Int) (searchKey : Nat) : Nat → Option Nat → Option Nat
  | 0, cur => cur
  | fuel + 1, cur =>
    match cur with
    | none => none
    | some nid =>
      let nd := nodeOf s nid
      if nd.isLeaf then some nid
      else descendLoop s kcmp searchKey fuel (descendStep s kcmp searchKey nd)

/-- BB.searchForLeafNode of btree.ts.  Allocates the probe cell and walks
from the root; returns the reached node (a leaf, on well-formed trees) or
none on an empty tree.  The optional queryCompare parameter of the source
is used only by the predicate scans, which are outside the claims; the
effective comparator here is always the main one. -/
def searchForLeafNode {K : Type} {V : Type} [Inhabited K] (s : BBState K V)
    (kcmp : K → K → Int) (key : K) : Option Nat × BBState K V :=
  match s.tree.root_node with
  | none => (none, s)
  | some root =>
    let (searchKey, s) := createBPlusCell s key none none
    (descendLoop s kcmp searchKey (s.bnodes.length + 1) (some root), s)

/-- BB.searchForValue of btree.ts. -/
def searchForValue {K : Type} {V : Type} [Inhabited K] (s : BBState K V)
    (kcmp : K → K → Int) (searchKey : K) (searchType : SearchType) :
    Option V × BBState K V :=
  let (leafNode, s) := searchForLeafNode s kcmp searchKey
  match leafNode with
  | none => (none, s)
  | some lf =>
    let (probe, s) := createBPlusCell s searchKey none none
    match LL.search s.ll (cellCmp s kcmp) (nodeOf s lf).cellsList probe searchType with
    | some foundNode => ((cellOf s (lnodeOf s.ll foundNode).key).value, s)
    | none => (none, s)

end BB

namespace BB

/-- BB.split of btree.ts.  Splits the overfull node after half_capacity,
wires the new right node in, creates a fresh root when the effected node
was the root, inserts the separator cell into the parent, and for interior
splits deletes the promoted separator from the left part.  Returns the
parent node id the source returns (reading parent_node at the end). -/
def split {K : Type} {V : Type} [Inhabited K] (s0 : BBState K V)
    (kcmp : K → K → Int) (effectedNode : Nat) :
    Except String (Option Nat × BBState K V) :=
  let splitAfterIndex := s0.tree.half_capacity
  match LL.splitAt s0.ll (nodeOf s0 effectedNode).cellsList splitAfterIndex with
  | Except.error e => Except.error e
  | Except.ok (newLeftList, newRightList, ls) =>
    let s := { s0 with ll := ls }
    let lmcArg : Option Nat := match (listOf s.ll newLeftList).max with
      | some m => (cellOf s (lnodeOf s.ll m).key).right_child_node
      | none => none
    let (splitRightNode, s) := createBPlusNode s (nodeOf s effectedNode).isLeaf
      (nodeOf s effectedNode).parent_node lmcArg
    let s := setAsCellsList s splitRightNode newRightList
    let s := modBNode s splitRightNode
      (fun nd => { nd with rightSibling := (nodeOf s effectedNode).rightSibling })
    let s := match (nodeOf s effectedNode).rightSibling with
      | some rs => modBNode s rs (fun nd => { nd with leftSibling := some splitRightNode })
      | none => s
    let s := modBNode s splitRightNode (fun nd => { nd with leftSibling := some effectedNode })
    let s := modBNode s effectedNode (fun nd => { nd with rightSibling := some splitRightNode })
    let s := if (nodeOf s effectedNode).parent_node = none then
        let (newRootNode, s2) := createBPlusNode s false none (some effectedNode)
        { s2 with tree := { s2.tree with root_node := some newRootNode } }
      else s
    let s := modBNode s splitRightNode
      (fun nd => { nd with parent_node := (nodeOf s effectedNode).parent_node })
    match (listOf s.ll newLeftList).max with
    | none => Except.error "TypeError"
    | some m =>
      let sepKey := (cellOf s (lnodeOf s.ll m).key).key
      let (parentCellForNewRightNode, s) := createBPlusCell s sepKey (some splitRightNode)
        (nodeOf s effectedNode).parent_node
      match (nodeOf s effectedNode).parent_node with
      | none => Except.error "TypeError"
      | some pn =>
        let (_, ls) := LL.insert s.ll (cellCmp s kcmp) (nodeOf s pn).cellsList
          parentCellForNewRightNode
        let s := { s with ll := ls }
        if (nodeOf s effectedNode).isLeaf then
          let s := if s.tree.right_most_node = some effectedNode then
              { s with tree := { s.tree with right_most_node := some splitRightNode } }
            else s
          Except.ok ((nodeOf s effectedNode).parent_node, s)
        else
          match (listOf s.ll newLeftList).max with
          | none => Except.error "TypeError"
          | some m2 =>
            let delKey := (cellOf s (lnodeOf s.ll m2).key).key
            let (probe, s) := createBPlusCell s delKey none none
            let (_, ls) := LL.deleteNode s.ll (cellCmp s kcmp) newLeftList probe
            let s := { s with ll := ls }
            Except.ok ((nodeOf s effectedNode).parent_node, s)

/-- BB.merge of btree.ts (source merges into target). -/
def merge {K : Type} {V : Type} [Inhabited K] (s : BBState K V)
    (kcmp : K → K → Int) (source target : Nat) :
    Except String (Option Nat × BBState K V) := do
  let effective_parent_cell ← find_effective_parent_cell s source
  let s ←
    if (nodeOf s source).isLeaf = false then do
      let right_child_node := (nodeOf s source).left_most_child
      let (first_cell_for_target, s) := createBPlusCell s
        (cellOf s effective_parent_cell).key right_child_node (some target)
      let (_, ls) := LL.insert s.ll (cellCmp s kcmp) (nodeOf s target).cellsList
        first_cell_for_target
      pure { s with ll := ls }
    else pure s
  let (_, ls) := LL.mergeSplittedRightIntoLeft s.ll (nodeOf s target).cellsList
    (nodeOf s source).cellsList
  let s := { s with ll := ls }
  let s := reinforceParentShipInChildNodes s target
  let s := modBNode s target
    (fun nd => { nd with rightSibling := (nodeOf s source).rightSibling })
  let s := match (nodeOf s source).rightSibling with
    | some rs => modBNode s rs (fun nd => { nd with leftSibling := some target })
    | none => s
  let s ←
    if (nodeOf s source).parent_cell = none then do
      let pn ← oget (nodeOf s source).parent_node
      let mn ← oget (listOf s.ll (nodeOf s pn).cellsList).min
      let replacement_key := (cellOf s (lnodeOf s.ll mn).key).key
      let (probe, s) := createBPlusCell s replacement_key none none
      let (deletedN, ls) := LL.deleteNode s.ll (cellCmp s kcmp)
        (nodeOf s pn).cellsList probe
      let s := { s with ll := ls }
      let s := match deletedN with
        | some dn =>
          match (cellOf s (lnodeOf s.ll dn).key).right_child_node with
          | some rc => setAsLeftMostChildNode s pn rc
          | none => s
        | none => s
      pure (modCell s effective_parent_cell (fun c => { c with key := replacement_key }))
    else do
      let pc ← oget (nodeOf s source).parent_cell
      let pn ← oget (nodeOf s source).parent_node
      let (probe, s) := createBPlusCell s (cellOf s pc).key none none
      let (_, ls) := LL.deleteNode s.ll (cellCmp s kcmp) (nodeOf s pn).cellsList probe
      pure { s with ll := ls }
  let s := if s.tree.right_most_node = some source then
      { s with tree := { s.tree with right_most_node := some target } }
    else s
  Except.ok ((nodeOf s source).parent_node, s)

/-- BB.distribute of btree.ts (steal cells from a sibling). -/
def distribute {K : Type} {V : Type} [Inhabited K] (s : BBState K V)
    (kcmp : K → K → Int) (source target : Nat) (source_is : SOURCE_IS) :
    Except String (BBState K V) := do
  let effectiveNode := if source_is = SOURCE_IS.LEFT_SIBLING then target else source
  let effective_parent_cell ← find_effective_parent_cell s effectiveNode
  let s ←
    if (nodeOf s source).isLeaf = false then do
      let right_child_node := if source_is = SOURCE_IS.LEFT_SIBLING then
          (nodeOf s target).left_most_child
        else (nodeOf s source).left_most_child
      let (first_cell_for_target, s) := createBPlusCell s
        (cellOf s effective_parent_cell).key right_child_node (some target)
      let (_, ls) := LL.insert s.ll (cellCmp s kcmp) (nodeOf s target).cellsList
        first_cell_for_target
      pure { s with ll := ls }
    else pure s
  let srcCount := (listOf s.ll (nodeOf s source).cellsList).count
  let splitIdx :=
    if (nodeOf s source).isLeaf = false then
      if source_is = SOURCE_IS.RIGHT_SIBLING then srcCount - s.tree.half_capacity - 1
      else srcCount - s.tree.half_capacity + 1
    else
      if source_is = SOURCE_IS.RIGHT_SIBLING then srcCount - s.tree.half_capacity - 1
      else s.tree.half_capacity - 1
  let splitted ← LL.splitAt s.ll (nodeOf s source).cellsList splitIdx
  let s := { s with ll := splitted.2.2 }
  let sc0 := splitted.1
  let sc1 := splitted.2.1
  let step4 : Option Nat × K × BBState K V ←
    match source_is with
    | SOURCE_IS.LEFT_SIBLING => do
      let mx ← oget (listOf s.ll (nodeOf s source).cellsList).max
      let maxCellId := (lnodeOf s.ll mx).key
      let effective_LMC := (cellOf s maxCellId).right_child_node
      let replacement_key := (cellOf s maxCellId).key
      let s ←
        if (nodeOf s source).isLeaf = false then do
          let (probe, s) := createBPlusCell s (cellOf s maxCellId).key none none
          let (_, ls) := LL.deleteNode s.ll (cellCmp s kcmp)
            (nodeOf s source).cellsList probe
          pure { s with ll := ls }
        else pure s
      pure (effective_LMC, replacement_key, s)
    | SOURCE_IS.RIGHT_SIBLING => do
      let s := setAsCellsList s source sc1
      let mx ← oget (listOf s.ll sc0).max
      let maxCellId := (lnodeOf s.ll mx).key
      let effective_LMC := (cellOf s maxCellId).right_child_node
      let replacement_key := (cellOf s maxCellId).key
      let s ←
        if (nodeOf s source).isLeaf = false then do
          let (probe, s) := createBPlusCell s (cellOf s maxCellId).key none none
          let (_, ls) := LL.deleteNode s.ll (cellCmp s kcmp) sc0 probe
          pure { s with ll := ls }
        else pure s
      pure (effective_LMC, replacement_key, s)
  let effective_LMC := step4.1
  let replacement_key := step4.2.1
  let s := step4.2.2
  let s :=
    match source_is with
    | SOURCE_IS.LEFT_SIBLING =>
      if (listOf s.ll sc1).count > 0 then
        let (_, ls) := LL.mergeSplittedLeftIntoRight s.ll sc1 (nodeOf s target).cellsList
        reinforceParentShipInChildNodes { s with ll := ls } target
      else s
    | SOURCE_IS.RIGHT_SIBLING =>
      if (listOf s.ll sc0).count > 0 then
        let (_, ls) := LL.mergeSplittedRightIntoLeft s.ll (nodeOf s target).cellsList sc0
        reinforceParentShipInChildNodes { s with ll := ls } target
      else s
  let s ←
    if (nodeOf s source).isLeaf = false then
      match source_is with
      | SOURCE_IS.LEFT_SIBLING => do
        let lmc ← oget effective_LMC
        pure (setAsLeftMostChildNode s target lmc)
      | SOURCE_IS.RIGHT_SIBLING => do
        let lmc ← oget effective_LMC
        pure (setAsLeftMostChildNode s source lmc)
    else pure s
  if source_is = SOURCE_IS.RIGHT_SIBLING ∧ (nodeOf s source).isLeaf then do
    let mx ← oget (listOf s.ll (nodeOf s target).cellsList).max
    let k := (cellOf s (lnodeOf s.ll mx).key).key
    pure (modCell s effective_parent_cell (fun c => { c with key := k }))
  else
    pure (modCell s effective_parent_cell (fun c => { c with key := replacement_key }))

/-- BB.balance of btree.ts.  Structurally recursive on explicit fuel; on
every tree the source can build the recursion depth is bounded by the
height, so fuel heap-size + 1 is never exhausted in the runs below.  Every
error of the body is wrapped exactly as the catch block of the source
does. -/
def balance {K : Type} {V : Type} [Inhabited K] :
    Nat → BBState K V → (K → K → Int) → Nat → Except String (BBState K V)
  | 0, _, _, _ => Except.error "Failed while balancing: "
  | fuel + 1, s, kcmp, effectedNode =>
    let inner : Except String (BBState K V) :=
      match determineBalancingCase s effectedNode with
      | Except.error e => Except.error e
      | Except.ok balanceCase =>
        match balanceCase with
        | BalanceCase.DO_NOTHING => Except.ok s
        | BalanceCase.REMOVE_ROOT =>
          match s.tree.root_node with
          | none => Except.error "TypeError"
          | some r =>
            let s := { s with tree :=
              { s.tree with root_node := (nodeOf s r).left_most_child } }
            let s := match s.tree.root_node with
              | some nr => modBNode s nr (fun nd => { nd with parent_node := none })
              | none => s
            Except.ok s
        | BalanceCase.SPLIT =>
          match split s kcmp effectedNode with
          | Except.error e => Except.error e
          | Except.ok (nextnode, s) =>
            match nextnode with
            | none => Except.error "TypeError"
            | some n => balance fuel s kcmp n
        | BalanceCase.DISTRIBUTE_RIGHT_INTO_NODE =>
          match (nodeOf s effectedNode).rightSibling with
          | none => Except.error "TypeError"
          | some rs => distribute s kcmp rs effectedNode SOURCE_IS.RIGHT_SIBLING
        | BalanceCase.DISTRIBUTE_LEFT_INTO_NODE =>
          match (nodeOf s effectedNode).leftSibling with
          | none => Except.error "TypeError"
          | some lsb => distribute s kcmp lsb effectedNode SOURCE_IS.LEFT_SIBLING
        | BalanceCase.MERGE_RIGHT_INTO_NODE =>
          match (nodeOf s effectedNode).rightSibling with
          | none => Except.error "TypeError"
          | some rs =>
            match merge s kcmp rs effectedNode with
            | Except.error e => Except.error e
            | Except.ok (nextnode, s) =>
              match nextnode with
              | some n => balance fuel s kcmp n
              | none => Except.ok s
        | BalanceCase.MERGE_NODE_INTO_LEFT =>
          match (nodeOf s effectedNode).leftSibling with
          | none => Except.error "TypeError"
          | some lsb =>
            match merge s kcmp effectedNode lsb with
            | Except.error e => Except.error e
            | Except.ok (nextnode, s) =>
              match nextnode with
              | some n => balance fuel s kcmp n
              | none => Except.ok s
    match inner with
    | Except.ok s2 => Except.ok s2
    | Except.error e => Except.error ("Failed while balancing: " ++ e)

end BB

namespace BB

/-- BB.insert of btree.ts.  fuel bounds the balance recursion only. -/
def insert {K : Type} {V : Type} [Inhabited K] (fuel : Nat) (s : BBState K V)
    (kcmp : K → K → Int) (key : K) (value : Option V) :
    Except String (Option K × BBState K V) :=
  match s.tree.root_node with
  | none =>
    let (rootId, s) := createBPlusNode s true none none
    let t := { s.tree with
      root_node := some rootId
      left_most_node := some rootId
      right_most_node := some rootId
      size := s.tree.size + 1 }
    let s := { s with tree := t }
    let (cid, s) := createBPlusCell s key none (some rootId)
    let (j, ls) := LL.insert s.ll (cellCmp s kcmp) (nodeOf s rootId).cellsList cid
    let s := { s with ll := ls }
    let s := modCell s (lnodeOf s.ll j).key (fun c => { c with value := value })
    Except.ok (some key, s)
  | some _ =>
    let (leafNode, s) := searchForLeafNode s kcmp key
    match leafNode with
    | none => Except.ok (none, s)
    | some lf =>
      let (cid, s) := createBPlusCell s key none (some lf)
      let (insertedNode, ls) := LL.insert s.ll (cellCmp s kcmp) (nodeOf s lf).cellsList cid
      let s := { s with ll := ls }
      let s := modCell s (lnodeOf s.ll insertedNode).key (fun c => { c with value := value })
      match balance fuel s kcmp lf with
      | Except.error e => Except.error e
      | Except.ok s =>
        let s := { s with tree := { s.tree with size := s.tree.size + 1 } }
        Except.ok (some key, s)

/-- BB.deleteKey of btree.ts. -/
def deleteKey {K : Type} {V : Type} [Inhabited K] (fuel : Nat) (s : BBState K V)
    (kcmp : K → K → Int) (key : K) : Except String (Option K × BBState K V) :=
  match s.tree.root_node with
  | none => Except.ok (none, { s with tree := { s.tree with size := 0 } })
  | some _ =>
    let (leafNode, s) := searchForLeafNode s kcmp key
    match leafNode with
    | none => Except.error "TypeError"
    | some lf =>
      let (probe, s) := createBPlusCell s key none none
      let (deletedNode, ls) := LL.deleteNode s.ll (cellCmp s kcmp)
        (nodeOf s lf).cellsList probe
      let s := { s with ll := ls }
      match deletedNode with
      | some dn =>
        let s := { s with tree := { s.tree with
          size := s.tree.size - (1 + (lnodeOf s.ll dn).duplicate_count) } }
        match balance fuel s kcmp lf with
        | Except.error e => Except.error e
        | Except.ok s => Except.ok (some (cellOf s (lnodeOf s.ll dn).key).key, s)
      | none => Except.ok (none, s)

/-- BB.deleteKeyReturnValue of btree.ts (identical to deleteKey but
returns the value of the deleted cell). -/
def deleteKeyReturnValue {K : Type} {V : Type} [Inhabited K] (fuel : Nat)
    (s : BBState K V) (kcmp : K → K → Int) (key : K) :
    Except String (Option V × BBState K V) :=
  match s.tree.root_node with
  | none => Except.ok (none, { s with tree := { s.tree with size := 0 } })
  | some _ =>
    let (leafNode, s) := searchForLeafNode s kcmp key
    match leafNode with
    | none => Except.error "TypeError"
    | some lf =>
      let (probe, s) := createBPlusCell s key none none
      let (deletedNode, ls) := LL.deleteNode s.ll (cellCmp s kcmp)
        (nodeOf s lf).cellsList probe
      let s := { s with ll := ls }
      match deletedNode with
      | some dn =>
        let s := { s with tree := { s.tree with
          size := s.tree.size - (1 + (lnodeOf s.ll dn).duplicate_count) } }
        match balance fuel s kcmp lf with
        | Except.error e => Except.error e
        | Except.ok s => Except.ok ((cellOf s (lnodeOf s.ll dn).key).value, s)
      | none => Except.ok (none, s)

/-- BB.getSize of btree.ts. -/
def getSize {K : Type} {V : Type} (s : BBState K V) : Int :=
  s.tree.size

/-- The while loop of BB.getMiddleKey: walk the leaf chain accumulating
counts; once the running total reaches hs, return the min key of the
current leaf. -/
def middleLoop {K : Type} {V : Type} [Inhabited K] (s : BBState K V) (hs : Int) :
    Nat → Int → Option Nat → Except String (Option K)
  | 0, _, _ => Except.error "fuel"
  | fuel + 1, c, found_leaf_node =>
    if c < hs then
      match found_leaf_node with
      | none => Except.ok none
      | some nid =>
        let nd := nodeOf s nid
        let t := c + (listOf s.ll nd.cellsList).count
        if t < hs then middleLoop s hs fuel t nd.rightSibling
        else
          match (listOf s.ll nd.cellsList).min with
          | none => Except.error "TypeError"
          | some mn => Except.ok (some (cellOf s (lnodeOf s.ll mn).key).key)
    else Except.ok none

/-- BB.getMiddleKey of btree.ts. -/
def getMiddleKey {K : Type} {V : Type} [Inhabited K] (s : BBState K V) :
    Except String (Option K) :=
  let hs := (getSize s).fdiv 2
  match s.tree.left_most_node with
  | none => Except.ok none
  | some n0 => middleLoop s hs (s.bnodes.length + 1) 0 (some n0)

/-- The inner for loop of the range functions: pagination over one leaf
scan.  State is (skip, count, result); break leaves the remaining items
unprocessed. -/
def pageLoop {E : Type} (offset limit : Int) (emit : Nat → E) :
    List Nat → Int × Int × List E → Int × Int × List E
  | [], acc => acc
  | n1 :: rest, (skip, count, result) =>
    if skip ≥ offset then
      if limit ≠ -1 ∧ count = limit then (skip, count, result)
      else pageLoop offset limit emit rest (skip, count + 1, result ++ [emit n1])
    else pageLoop offset limit emit rest (skip + 1, count, result)

/-- The leading while loop of the range functions.  One fuel unit per
iteration; the source loop runs forever when currentNode becomes
undefined without ever being identical to endNode, which here shows up as
the result none for every fuel.  The start and end probe cells are
allocated afresh inside every iteration, exactly as in the source. -/
def rangeLoop {K : Type} {V : Type} {E : Type} [Inhabited K]
    (kcmp : K → K → Int) (offset limit : Int) (startKey endKey : Option K)
    (endNode : Option Nat) (emit : BBState K V → Nat → E) :
    Nat → Option Nat → Int × Int × List E → BBState K V →
    Option (Option Nat × (Int × Int × List E) × BBState K V)
  | 0, _, _, _ => none
  | fuel + 1, currentNode, acc, s =>
    if currentNode = endNode then some (currentNode, acc, s)
    else
      let (sk, s) := match startKey with
        | none => ((none : Option Nat), s)
        | some k => let (c, s) := createBPlusCell s k none none; (some c, s)
      let (ek, s) := match endKey with
        | none => ((none : Option Nat), s)
        | some k => let (c, s) := createBPlusCell s k none none; (some c, s)
      match currentNode with
      | some nid =>
        let st1 := LL.searchTillStream s.ll (cellCmp s kcmp)
          (nodeOf s nid).cellsList sk ek false
        let acc := pageLoop offset limit (emit s) st1 acc
        rangeLoop kcmp offset limit startKey endKey endNode emit fuel
          (nodeOf s nid).rightSibling acc s
      | none =>
        rangeLoop kcmp offset limit startKey endKey endNode emit fuel currentNode acc s

/-- The opening lines of the range functions: resolve the start and end
leaves (left_most_node and right_most_node stand in for absent bounds). -/
def rangeResolve {K : Type} {V : Type} [Inhabited K] (s : BBState K V)
    (kcmp : K → K → Int) (startKey endKey : Option K) :
    Option Nat × Option Nat × BBState K V :=
  let (startNode, s) := match startKey with
    | none => (s.tree.left_most_node, s)
    | some k => searchForLeafNode s kcmp k
  let (endNode, s) := match endKey with
    | none => (s.tree.right_most_node, s)
    | some k => searchForLeafNode s kcmp k
  (startNode, endNode, s)

/-- The two traversal phases of the range functions, applied to the
resolved start node, end node and state. -/
def rangePhases {K : Type} {V : Type} {E : Type} [Inhabited K] (fuel : Nat)
    (kcmp : K → K → Int) (offset limit : Int) (startKey endKey : Option K)
    (emit : BBState K V → Nat → E) (startNode endNode : Option Nat)
    (s : BBState K V) : Option (List E × BBState K V) :=
  let phase1 : Option (Option Nat × (Int × Int × List E) × BBState K V) :=
    if startNode ≠ endNode then
      rangeLoop kcmp offset limit startKey endKey endNode emit fuel startNode (0, 0, []) s
    else some (startNode, (0, 0, []), s)
  match phase1 with
  | none => none
  | some (currentNode, acc, s) =>
    if currentNode.isSome ∧ currentNode = endNode then
      let (sk, s) := match startKey with
        | none => ((none : Option Nat), s)
        | some k => let (c, s) := createBPlusCell s k none none; (some c, s)
      let (ek, s) := match endKey with
        | none => ((none : Option Nat), s)
        | some k => let (c, s) := createBPlusCell s k none none; (some c, s)
      match currentNode with
      | some nid =>
        let st1 := LL.searchTillStream s.ll (cellCmp s kcmp)
          (nodeOf s nid).cellsList sk ek false
        let acc := pageLoop offset limit (emit s) st1 acc
        some (acc.2.2, s)
      | none => some (acc.2.2, s)
    else some (acc.2.2, s)

/-- The shared body of the range entry points, parameterised by what is
emitted per cell. -/
def rangeBody {K : Type} {V : Type} {E : Type} [Inhabited K] (fuel : Nat)
    (s : BBState K V) (kcmp : K → K → Int) (offset limit : Int)
    (startKey endKey : Option K) (emit : BBState K V → Nat → E) :
    Option (List E × BBState K V) :=
  rangePhases fuel kcmp offset limit startKey endKey emit
    (rangeResolve s kcmp startKey endKey).1 (rangeResolve s kcmp startKey endKey).2.1
    (rangeResolve s kcmp startKey endKey).2.2

/-- BB.searchForRangeWithPagination of btree.ts (the keys variant). -/
def searchForRangeWithPagination {K : Type} {V : Type} [Inhabited K] (fuel : Nat)
    (s : BBState K V) (kcmp : K → K → Int) (offset limit : Int)
    (startKey endKey : Option K) : Option (List K × BBState K V) :=
  rangeBody fuel s kcmp offset limit startKey endKey
    (fun s cid => (cellOf s cid).key)

/-- BB.searchForRangeWithPaginationKVP of btree.ts; a BB_KV_P is modelled
as a pair of the key and the optional value. -/
def searchForRangeWithPaginationKVP {K : Type} {V : Type} [Inhabited K] (fuel : Nat)
    (s : BBState K V) (kcmp : K → K → Int) (offset limit : Int)
    (startKey endKey : Option K) : Option (List (K × Option V) × BBState K V) :=
  rangeBody fuel s kcmp offset limit startKey endKey
    (fun s cid => ((cellOf s cid).key, (cellOf s cid).value))

end BB

/-- Extract the payload of an ok result (fallback for the error case; all
concrete runs below are checked to be ok). -/
def getOkD {A : Type} (x : Except String A) (d : A) : A :=
  match x with
  | Except.ok a => a
  | Except.error _ => d

/-- Boolean ok-test for Except. -/
def isOkB {A : Type} (x : Except String A) : Bool :=
  match x with
  | Except.ok _ => true
  | Except.error _ => false

instance {E A : Type} [DecidableEq E] [DecidableEq A] : DecidableEq (Except E A) :=
  fun a b =>
    match a, b with
    | Except.ok x, Except.ok y => decidable_of_iff (x = y) (by simp)
    | Except.error x, Except.error y => decidable_of_iff (x = y) (by simp)
    | Except.ok _, Except.error _ => isFalse (by simp)
    | Except.error _, Except.ok _ => isFalse (by simp)

/-- Observation: the node ids of a linked chain, walking rightSibling. -/
def chainIds {A : Type} [Inhabited A] (s : LLState A) : Nat → Option Nat → List Nat
  | 0, _ => []
  | _ + 1, none => []
  | fuel + 1, some n => n :: chainIds s fuel (lnodeOf s n).rightSibling

/-- Observation: the keys stored in a cell list, in chain order. -/
def listKeys {K : Type} {V : Type} [Inhabited K] (s : BBState K V) (listId : Nat) :
    List K :=
  (chainIds s.ll (s.ll.nodes.length + 1) (listOf s.ll listId).min).map
    (fun ln => (cellOf s (lnodeOf s.ll ln).key).key)

/-- Observation: the keys of the cell list of a node. -/
def nodeKeys {K : Type} {V : Type} [Inhabited K] (s : BBState K V) (nid : Nat) : List K :=
  listKeys s (nodeOf s nid).cellsList

/-- Observation: the keys in the root node (empty when there is no root). -/
def rootCellKeys {K : Type} {V : Type} [Inhabited K] (s : BBState K V) : List K :=
  match s.tree.root_node with
  | some r => nodeKeys s r
  | none => []

/-- Observation: node ids along the leaf sibling chain from left_most_node. -/
def leafChainIds {K : Type} {V : Type} (s : BBState K V) : Nat → Option Nat → List Nat
  | 0, _ => []
  | _ + 1, none => []
  | fuel + 1, some n => n :: leafChainIds s fuel (nodeOf s n).rightSibling

/-- Observation: key lists of all leaves, left to right. -/
def leafKeysSeq {K : Type} {V : Type} [Inhabited K] (s : BBState K V) : List (List K) :=
  (leafChainIds s (s.bnodes.length + 1) s.tree.left_most_node).map (nodeKeys s)

/-- Observation: keys of the left-most child of the root. -/
def rootLmcKeys {K : Type} {V : Type} [Inhabited K] (s : BBState K V) : List K :=
  match s.tree.root_node with
  | some r =>
    match (nodeOf s r).left_most_child with
    | some c => nodeKeys s c
    | none => []
  | none => []

/-- Observation: for every cell in the root, the keys of its right child
subtree root (empty list for a missing child). -/
def rootCellChildKeys {K : Type} {V : Type} [Inhabited K] (s : BBState K V) :
    List (List K) :=
  match s.tree.root_node with
  | some r =>
    (chainIds s.ll (s.ll.nodes.length + 1) (listOf s.ll (nodeOf s r).cellsList).min).map
      (fun ln =>
        match (cellOf s (lnodeOf s.ll ln).key).right_child_node with
        | some ch => nodeKeys s ch
        | none => [])
  | none => []

/-- Observation: whether the root exists and is an interior node. -/
def rootIsInterior {K : Type} {V : Type} (s : BBState K V) : Bool :=
  match s.tree.root_node with
  | some r => (nodeOf s r).isLeaf = false
  | none => false

/-- Fold a list of keys into a tree state by repeated BB.insert with no
values (used by the concrete scenarios). -/
def insertKeys {K : Type} {V : Type} [Inhabited K] (fuel : Nat) (kcmp : K → K → Int) :
    BBState K V → List K → Except String (BBState K V)
  | s, [] => Except.ok s
  | s, k :: rest =>
    match BB.insert fuel s kcmp k none with
    | Except.error e => Except.error e
    | Except.ok (_, s) => insertKeys fuel kcmp s rest

/-- The empty state of a freshly constructed tree with max_node_size 4. -/
def state4 : BBState Int Int :=
  { tree := getOkD (mkBPlusTree 4) default }

/-- Fold key-value pairs into a tree state by repeated BB.insert. -/
def insertKVs {K : Type} {V : Type} [Inhabited K] (fuel : Nat) (kcmp : K → K → Int) :
    BBState K V → List (K × V) → Except String (BBState K V)
  | s, [] => Except.ok s
  | s, kv :: rest =>
    match BB.insert fuel s kcmp kv.1 (some kv.2) with
    | Except.error e => Except.error e
    | Except.ok (_, s) => insertKVs fuel kcmp s rest

/-- Scenario state: keys 10,20,30,40,50 inserted into a max_node_size 4
tree (the split scenario of the spec). -/
def c1run : BBState Int Int :=
  getOkD (insertKeys 20 intCmp state4 [10, 20, 30, 40, 50]) state4

/-- Scenario state: keys 10,20,...,100 inserted into a max_node_size 4
tree (the range scenario of the spec). -/
def c6run : BBState Int Int :=
  getOkD (insertKeys 20 intCmp state4 [10, 20, 30, 40, 50, 60, 70, 80, 90, 100]) state4

/-- Scenario state: key 5 inserted three times with values 1, 2, 3. -/
def c7run : BBState Int Int :=
  getOkD (insertKVs 20 intCmp state4 [(5, 1), (5, 2), (5, 3)]) state4

/-- The result of deleting key 5 from the triple-duplicate scenario. -/
def c7del : Option Int × BBState Int Int :=
  getOkD (BB.deleteKeyReturnValue 20 c7run intCmp 5) (none, c7run)

/-- Scenario state: the ten-key middle_key scenario of the spec. -/
def c8run : BBState Int Int :=
  getOkD (insertKeys 20 intCmp state4 [50, 30, 70, 10, 40, 60, 90, 20, 80, 100]) state4

/-- A tree holding exactly one key. -/
def c8oneRun : BBState Int Int :=
  getOkD (insertKeys 20 intCmp state4 [10]) state4

/-- A tree with six keys spread over two leaves of three cells each. -/
def c8sixRun : BBState Int Int :=
  getOkD (insertKeys 20 intCmp state4 [10, 20, 30, 40, 50, 60]) state4

/-- Comparator on pairs that only inspects the first component, so that two
keys can compare equal while carrying different payloads. -/
def pairCmp (a b : Int × Int) : Int :=
  intCmp a.1 b.1

/-- A one-element sorted list over pair keys: node 0 holds (5, 0). -/
def c2state : LLState (Int × Int) :=
  { nodes := [(0, { key := (5, 0) })],
    lists := [(1, { min := some 0, max := some 0, count := 1 })],
    fresh := 2 }

/-- A three-element sorted list 1, 2, 3 (node ids 0, 1, 2; list id 3). -/
def c3state : LLState Int :=
  { nodes := [(0, { key := 1, rightSibling := some 1 }),
              (1, { key := 2, leftSibling := some 0, rightSibling := some 2 }),
              (2, { key := 3, leftSibling := some 1 })],
    lists := [(3, { min := some 0, max := some 2, count := 3 })],
    fresh := 4 }

/-- The result of splitting the three-element list after index 0. -/
def c3split : Nat × Nat × LLState Int :=
  getOkD (LL.splitAt c3state 3 0) (0, 0, c3state)

/-- C1.  The claim asserts that inserting 10,20,30,40,50 with
max_node_size 4 leaves an interior root whose single cell key is 20, with
left leaf [10,20] and right leaf [30,40,50].  The code splits after index
half_capacity = 2, so the root cell key is 30, the left leaf is
[10,20,30] and the right leaf is [40,50]: the claimed shape is false on
the concrete run. -/
theorem C1_counterexample :
    ¬ (rootCellKeys c1run = [20] ∧ leafKeysSeq c1run = [[10, 20], [30, 40, 50]]) := by
  decide

/-- C1 (amended).  Inserting 10,20,30,40,50 with max_node_size 4 splits
the root after index half_capacity = 2: the result is an interior root
holding exactly one cell with key 30, whose left subtree is the leaf
[10,20,30] and whose right subtree is the leaf [40,50], with size 5. -/
theorem C1_amended_holds :
    isOkB (insertKeys 20 intCmp state4 [10, 20, 30, 40, 50]) = true ∧
    rootIsInterior c1run = true ∧
    rootCellKeys c1run = [30] ∧
    rootLmcKeys c1run = [10, 20, 30] ∧
    rootCellChildKeys c1run = [[40, 50]] ∧
    leafKeysSeq c1run = [[10, 20, 30], [40, 50]] ∧
    c1run.tree.size = 5 := by
  decide

/-- C2.  Inserting a key that compares equal to the key of the only node
of a one-element list: duplicate_count is incremented and the stored key
is overwritten as the claim says, but count DROPS from 1 to 0 instead of
staying unchanged, because the duplicate branch of LL.insert decrements
count and then returns before the final increment. -/
theorem C2_failing_run :
    (LL.insert c2state pairCmp 1 (5, 1)).1 = 0 ∧
    lnodeOf (LL.insert c2state pairCmp 1 (5, 1)).2 0 =
      { rightSibling := none, leftSibling := none, duplicate_count := 1, key := (5, 1) } ∧
    (listOf c2state 1).count = 1 ∧
    (listOf (LL.insert c2state pairCmp 1 (5, 1)).2 1).count = 0 := by
  decide

/-- C3.  split_at on the list 1,2,3 (node ids 0,1,2) after index 0: the
left half is [1] and the right half holds nodes 1,2 (keys 2,3) with the
correct min and count, but its max is node 0 (key 1, the max of the LEFT
half, not even a member of the right half) because listToSplit.max is
overwritten before rightPortion.max is copied from it; the claim says the
max of the right half is the last element (node 2, key 3).  Also,
split_at with the out-of-range index -1 does not signal a
PreconditionViolation: it succeeds. -/
theorem C3_failing_run :
    isOkB (LL.splitAt c3state 3 0) = true ∧
    c3split.1 = 3 ∧ c3split.2.1 = 4 ∧
    listOf c3split.2.2 3 = { min := some 0, max := some 0, count := 1 } ∧
    listOf c3split.2.2 4 = { min := some 1, max := some 0, count := 2 } ∧
    (lnodeOf c3split.2.2 0).key = 1 ∧
    (lnodeOf c3split.2.2 1).key = 2 ∧
    (lnodeOf c3split.2.2 1).rightSibling = some 2 ∧
    (lnodeOf c3split.2.2 2).key = 3 ∧
    (lnodeOf c3split.2.2 2).rightSibling = none ∧
    isOkB (LL.splitAt c3state 3 (-1)) = true := by
  decide

/-- C6.  On the tree of keys 10,20,...,100 (all present in the leaves),
the unbounded range call returns only [10,...,60]: the query drops
70,...,100 because the right leaf produced by a split keeps a stale max
pointer and the final leaf scan stops immediately.  The bounded
in-particular instance range(start 35, end 75, offset 1, limit 2) does
return [50,60] as claimed. -/
theorem C6_failing_run :
    leafKeysSeq c6run = [[10, 20, 30], [40, 50, 60], [70, 80, 90, 100]] ∧
    (BB.searchForRangeWithPagination 30 c6run intCmp 0 (-1) none none).map Prod.fst =
      some [10, 20, 30, 40, 50, 60] ∧
    (BB.searchForRangeWithPagination 30 c6run intCmp 1 2 (some 35) (some 75)).map Prod.fst =
      some [50, 60] := by
  decide

/-- C7.  Inserting key 5 three times with values 1,2,3 and then reading
key 5 does return the latest value 3, and the delete returns that value
and leaves no record of key 5 behind; but the tree size after the delete
is 2, not 0: the duplicate insert had decremented the leaf count to 0,
root removal discarded the collapsed node, and the final delete only
subtracts 1. -/
theorem C7_failing_run :
    c7run.tree.size = 3 ∧
    (BB.searchForValue c7run intCmp 5 SearchType.EqualsTo).1 = some 3 ∧
    isOkB (BB.deleteKeyReturnValue 20 c7run intCmp 5) = true ∧
    c7del.1 = some 3 ∧
    c7del.2.tree.size = 2 ∧
    (BB.searchForValue c7del.2 intCmp 5 SearchType.EqualsTo).1 = none := by
  decide

/-- C8.  A tree holding the single key 10 is non-empty, and the claim then
demands the key at position 0, namely 10; but getMiddleKey returns
nothing, because hs = 0 makes the walk end before any leaf is read. -/
theorem C8_counterexample :
    c8oneRun.tree.size = 1 ∧
    leafKeysSeq c8oneRun = [[10]] ∧
    BB.getMiddleKey c8oneRun = Except.ok none := by
  decide

/-- C8 (amended).  middle_key returns nothing on the empty tree; on a
non-empty tree it walks the leaf chain and returns the MIN key of the
first leaf at which the cumulative cell count reaches floor(size/2),
returning nothing when floor(size/2) = 0: the ten-key scenario returns
50, while the six keys 10,...,60 (leaves [10,20,30], [40,50,60], with
floor(size/2) = 3 reached already inside the first leaf) yield 10, not
the 3rd-smallest key 40. -/
theorem C8_amended_holds :
    BB.getMiddleKey (state4 : BBState Int Int) = Except.ok none ∧
    BB.getMiddleKey c8run = Except.ok (some 50) ∧
    leafKeysSeq c8sixRun = [[10, 20, 30], [40, 50, 60]] ∧
    BB.getMiddleKey c8sixRun = Except.ok (some 10) := by
  decide

/-- C9.  The claim says construction fails when max_node_size < 4, but the
constructor only tests max_node_size % 2 === 1: new(2) succeeds, with
half_capacity 1. -/
theorem C9_counterexample :
    (2 : Int) < 4 ∧
    mkBPlusTree 2 = Except.ok { max_node_size := 2, half_capacity := 1 } := by
  decide

/-- nodeOf only reads the node heap, so cell allocations do not affect it. -/
theorem nodeOf_mk_cells {K V : Type} (s : BBState K V) (cs : List (Nat × Cell K V))
    (fr : Nat) (i : Nat) :
    nodeOf { s with cells := cs, fresh := fr } i = nodeOf s i := rfl

/-- Once the current node of the range loop is undefined while the end node
is a real node, every further iteration allocates its probe cells, skips
the body guard and loops again: the loop never finishes, whatever fuel it
is given. -/
theorem rangeLoop_stuck {K V E : Type} [Inhabited K] (kcmp : K → K → Int)
    (offset limit : Int) (k1 k2 : K) (e : Nat) (emit : BBState K V → Nat → E) :
    ∀ (fuel : Nat) (acc : Int × Int × List E) (s : BBState K V),
      BB.rangeLoop kcmp offset limit (some k1) (some k2) (some e) emit fuel none acc s
        = none := by
  intro fuel
  induction fuel with
  | zero => intro acc s; rfl
  | succ f ih =>
    intro acc s
    simp only [BB.rangeLoop]
    rw [if_neg (by simp : ¬ (none : Option Nat) = some e)]
    exact ih acc _

/-- Starting the range loop on a node distinct from the end node and with
no right sibling: the first iteration moves to undefined and the loop is
stuck forever. -/
theorem rangeLoop_stuck_start {K V E : Type} [Inhabited K] (kcmp : K → K → Int)
    (offset limit : Int) (k1 k2 : K) (e nid : Nat) (emit : BBState K V → Nat → E)
    (hne : (some nid : Option Nat) ≠ some e) :
    ∀ (fuel : Nat) (acc : Int × Int × List E) (s : BBState K V),
      (nodeOf s nid).rightSibling = none →
      BB.rangeLoop kcmp offset limit (some k1) (some k2) (some e) emit fuel (some nid) acc s
        = none := by
  intro fuel acc s h
  cases fuel with
  | zero => rfl
  | succ f =>
    simp only [BB.rangeLoop]
    rw [if_neg hne]
    simp only [createBPlusCell, nodeOf_mk_cells, h]
    exact rangeLoop_stuck kcmp offset limit k1 k2 e emit f _ _

/-- If the leading loop of a range call never returns, the whole call never
returns. -/
theorem rangePhases_none {K V E : Type} [Inhabited K] (fuel : Nat) (kcmp : K → K → Int)
    (offset limit : Int) (startKey endKey : Option K) (emit : BBState K V → Nat → E)
    (a b : Option Nat) (S : BBState K V) (h1 : a ≠ b)
    (h2 : BB.rangeLoop kcmp offset limit startKey endKey b emit fuel a (0, 0, []) S = none) :
    BB.rangePhases fuel kcmp offset limit startKey endKey emit a b S = none := by
  unfold BB.rangePhases
  rw [if_pos h1, h2]

/-- The leaf that bound 70 resolves to (node 19) lies to the right of the
leaf that bound 35 resolves to (node 10) in the ten-key tree. -/
theorem c4res_fst : (BB.rangeResolve c6run intCmp (some 70) (some 35)).1 = some 19 := rfl

theorem c4res_snd : (BB.rangeResolve c6run intCmp (some 70) (some 35)).2.1 = some 10 := rfl

/-- C4.  The range operations do NOT terminate on every input: on the tree
of keys 10,...,100, a range query whose start bound 70 resolves to a leaf
strictly right of the leaf of its end bound 35 makes the leading while
loop walk off the right end of the leaf chain; currentNode becomes
undefined, never equals the end node, and the loop spins forever.  In the
embedding both range operations return none for EVERY fuel value, which
is the fuel-based statement of non-termination of the source loop. -/
theorem C4_nontermination (fuel : Nat) :
    BB.searchForRangeWithPagination fuel c6run intCmp 0 (-1) (some 70) (some 35) = none ∧
    BB.searchForRangeWithPaginationKVP fuel c6run intCmp 0 (-1) (some 70) (some 35) = none := by
  constructor
  · show BB.rangePhases fuel intCmp 0 (-1) (some 70) (some 35)
      (fun s cid => (cellOf s cid).key)
      (BB.rangeResolve c6run intCmp (some 70) (some 35)).1
      (BB.rangeResolve c6run intCmp (some 70) (some 35)).2.1
      (BB.rangeResolve c6run intCmp (some 70) (some 35)).2.2 = none
    rw [c4res_fst, c4res_snd]
    apply rangePhases_none
    · decide
    · exact rangeLoop_stuck_start intCmp 0 (-1) 70 35 10 19 _ (by decide) fuel _ _ (by decide)
  · show BB.rangePhases fuel intCmp 0 (-1) (some 70) (some 35)
      (fun s cid => ((cellOf s cid).key, (cellOf s cid).value))
      (BB.rangeResolve c6run intCmp (some 70) (some 35)).1
      (BB.rangeResolve c6run intCmp (some 70) (some 35)).2.1
      (BB.rangeResolve c6run intCmp (some 70) (some 35)).2.2 = none
    rw [c4res_fst, c4res_snd]
    apply rangePhases_none
    · decide
    · exact rangeLoop_stuck_start intCmp 0 (-1) 70 35 10 19 _ (by decide) fuel _ _ (by decide)
/-- Is the given list of node ids exactly the chain starting at cur and
ending where rightSibling is undefined? -/
def chainFromB {A : Type} (s : LLState A) : Option Nat → List Nat → Bool
  | none, [] => true
  | none, _ :: _ => false
  | some _, [] => false
  | some i, j :: rest =>
    i == j &&
      (match hGet s.nodes i with
       | some nd => chainFromB s nd.rightSibling rest
       | none => false)

/-- Does every node of the list point back at its predecessor (prev for the
head)? -/
def leftLinksB {A : Type} [Inhabited A] (s : LLState A) : List Nat → Option Nat → Bool
  | [], _ => true
  | i :: rest, prev => ((lnodeOf s i).leftSibling == prev) && leftLinksB s rest (some i)

/-- Compute the chain of a list (none when the walk does not finish within
fuel, i.e. on a cyclic heap). -/
def chainList {A : Type} (s : LLState A) : Nat → Option Nat → Option (List Nat)
  | _, none => some []
  | 0, some _ => none
  | fuel + 1, some i =>
    match hGet s.nodes i with
    | none => none
    | some nd => (chainList s fuel nd.rightSibling).map (fun rest => i :: rest)

/-- The chain of the list header listId, when it is well founded. -/
def chainOf {A : Type} (s : LLState A) (listId : Nat) : Option (List Nat) :=
  chainList s (s.nodes.length + 1) (listOf s listId).min

/-- The chain of listId (empty as a fallback). -/
def idsOf {A : Type} (s : LLState A) (listId : Nat) : List Nat :=
  (chainOf s listId).getD []

/-- Chain well-formedness of one list: the walk from min terminates and the
left-sibling pointers mirror the right-sibling chain. -/
def wfChainB {A : Type} [Inhabited A] (s : LLState A) (listId : Nat) : Bool :=
  (chainOf s listId).isSome && leftLinksB s (idsOf s listId) none

theorem chainList_sound {A : Type} (s : LLState A) :
    ∀ (fuel : Nat) (cur : Option Nat) (ids : List Nat),
      chainList s fuel cur = some ids → chainFromB s cur ids = true := by
  intro fuel
  induction fuel with
  | zero =>
    intro cur ids h
    cases cur with
    | none => cases h; rfl
    | some i => cases h
  | succ f ih =>
    intro cur ids h
    cases cur with
    | none => cases h; rfl
    | some i =>
      cases hg : hGet s.nodes i with
      | none =>
        simp only [chainList, hg] at h
        exact Option.noConfusion h
      | some nd =>
        simp only [chainList, hg] at h
        cases hrest : chainList s f nd.rightSibling with
        | none => rw [hrest] at h; cases h
        | some rest =>
          rw [hrest] at h
          simp only [Option.map_some', Option.some.injEq] at h
          subst h
          simp only [chainFromB, hg]
          simp [ih nd.rightSibling rest hrest]

/-- The eq and lte results of the search loop lie on the chain it walks
(the lte result may also be the initial accumulator). -/
theorem searchAux_mem {A : Type} [Inhabited A] (s : LLState A) (cmp : A → A → Int)
    (k : A) (ty : SearchType) :
    ∀ (ids : List Nat) (fuel : Nat) (cur lte : Option Nat),
      chainFromB s cur ids = true →
      (∀ e, (LL.searchAux s cmp k ty fuel cur lte).1 = some e → e ∈ ids) ∧
      (∀ e, (LL.searchAux s cmp k ty fuel cur lte).2.1 = some e → e ∈ ids ∨ lte = some e) := by
  intro ids
  induction ids with
  | nil =>
    intro fuel cur lte hc
    have hcur : cur = none := by
      cases cur with
      | none => rfl
      | some i => simp [chainFromB] at hc
    subst hcur
    have hres : LL.searchAux s cmp k ty fuel none lte = (none, lte, none) := by
      cases fuel <;> rfl
    rw [hres]
    exact ⟨fun e he => Option.noConfusion he, fun e he => Or.inr he⟩
  | cons j rest ih =>
    intro fuel cur lte hc
    cases cur with
    | none => simp [chainFromB] at hc
    | some i =>
      simp only [chainFromB] at hc
      cases hg : hGet s.nodes i with
      | none => rw [hg] at hc; simp at hc
      | some nd =>
        rw [hg] at hc
        rw [Bool.and_eq_true] at hc
        obtain ⟨hij, hrest⟩ := hc
        have hije : i = j := by simpa using hij
        subst hije
        have hnd : lnodeOf s i = nd := by unfold lnodeOf; rw [hg]; rfl
        cases fuel with
        | zero =>
          exact ⟨fun e he => Option.noConfusion he, fun e he => Or.inr he⟩
        | succ f =>
          have hih := ih f nd.rightSibling
          simp only [LL.searchAux, hnd]
          by_cases h0 : cmp k nd.key = 0
          · rw [if_pos h0]
            by_cases hgt : ty = SearchType.GreaterThan
            · rw [if_pos hgt]
              refine ⟨fun e he => ?_, fun e he => ?_⟩
              · exact List.mem_cons_of_mem i ((hih lte hrest).1 e he)
              · rcases (hih lte hrest).2 e he with h | h
                · exact Or.inl (List.mem_cons_of_mem i h)
                · exact Or.inr h
            · rw [if_neg hgt]
              refine ⟨fun e he => ?_, fun e he => Or.inr he⟩
              cases he
              exact List.mem_cons_self i rest
          · rw [if_neg h0]
            by_cases hpos : cmp k nd.key > 0
            · rw [if_pos hpos]
              refine ⟨fun e he => ?_, fun e he => ?_⟩
              · exact List.mem_cons_of_mem i ((hih (some i) hrest).1 e he)
              · rcases (hih (some i) hrest).2 e he with h | h
                · exact Or.inl (List.mem_cons_of_mem i h)
                · cases h
                  exact Or.inl (List.mem_cons_self i rest)
            · rw [if_neg hpos]
              exact ⟨fun e he => Option.noConfusion he, fun e he => Or.inr he⟩

/-- A linked node returned by an LE search lies on the chain of the list. -/
theorem search_LE_mem {A : Type} [Inhabited A] (s : LLState A) (cmp : A → A → Int)
    (listId : Nat) (k : A) (ids : List Nat)
    (hc : chainFromB s (listOf s listId).min ids = true) :
    ∀ e, LL.search s cmp listId k SearchType.LesserThanOrEqualsTo = some e → e ∈ ids := by
  intro e he
  cases hm : (listOf s listId).min with
  | none =>
    simp only [LL.search, hm] at he
    exact absurd he (by simp)
  | some m =>
    simp only [LL.search, hm] at he
    rw [hm] at hc
    have hmem := searchAux_mem s cmp k SearchType.LesserThanOrEqualsTo ids
      (s.nodes.length + 1) (some m) none hc
    cases hr : (LL.searchAux s cmp k SearchType.LesserThanOrEqualsTo
        (s.nodes.length + 1) (some m) none).1 with
    | some x =>
      rw [hr] at he
      simp only [Option.or] at he
      cases he
      exact hmem.1 e hr
    | none =>
      rw [hr] at he
      simp only [Option.or] at he
      rcases hmem.2 e he with h | h
      · exact h
      · cases h

/-- The predecessor (by position) of the first occurrence of fc in the
chain, with prev the predecessor of the head: some none means fc is the
head (the min of the list), some (some p) gives the previous id, none
means fc is not on the chain. -/
def prevInChain : List Nat → Nat → Option Nat → Option (Option Nat)
  | [], _, _ => none
  | i :: rest, fc, prev => if i = fc then some prev else prevInChain rest fc (some i)

/-- On a chain with consistent left links, the leftSibling of any member is
exactly its positional predecessor. -/
theorem leftLinks_prev {A : Type} [Inhabited A] (s : LLState A) :
    ∀ (ids : List Nat) (prev : Option Nat) (fc : Nat),
      leftLinksB s ids prev = true → fc ∈ ids →
      ∃ po, prevInChain ids fc prev = some po ∧ (lnodeOf s fc).leftSibling = po := by
  intro ids
  induction ids with
  | nil => intro prev fc _ hmem; cases hmem
  | cons i rest ih =>
    intro prev fc hl hmem
    simp only [leftLinksB, Bool.and_eq_true] at hl
    obtain ⟨hhead, hrest⟩ := hl
    by_cases hif : i = fc
    · subst hif
      refine ⟨prev, ?_, ?_⟩
      · simp [prevInChain]
      · simpa using hhead
    · have hmem2 : fc ∈ rest := by
        cases hmem with
        | head => exact absurd rfl hif
        | tail _ h => exact h
      obtain ⟨po, h1, h2⟩ := ih (some i) fc hrest hmem2
      exact ⟨po, by simp [prevInChain, hif, h1], h2⟩

/-- A positional predecessor returned by prevInChain is the initial prev or
a member of the chain. -/
theorem prevInChain_mem :
    ∀ (ids : List Nat) (fc : Nat) (prev po : Option Nat),
      prevInChain ids fc prev = some po →
      po = prev ∨ ∃ p, po = some p ∧ p ∈ ids := by
  intro ids
  induction ids with
  | nil => intro fc prev po h; cases h
  | cons i rest ih =>
    intro fc prev po h
    simp only [prevInChain] at h
    by_cases hif : i = fc
    · rw [if_pos hif] at h
      cases h
      exact Or.inl rfl
    · rw [if_neg hif] at h
      rcases ih fc (some i) po h with h2 | h2
      · subst h2
        exact Or.inr ⟨i, rfl, List.mem_cons_self i rest⟩
      · obtain ⟨p, hp1, hp2⟩ := h2
        exact Or.inr ⟨p, hp1, List.mem_cons_of_mem i hp2⟩

/-- Modelled from the spec (section 4.3, find_leaf): at an interior node,
run the LE search on the cells for the probe; with no match descend into
left_most_child; with a strictly smaller match descend into the right
child of the matched cell; with an equal match descend into the right
child of the PREVIOUS cell of the chain, or left_most_child when the
matched cell is the min of the list.  The chain is passed explicitly as
ids. -/
def specNext {K : Type} {V : Type} [Inhabited K] (s : BBState K V)
    (kcmp : K → K → Int) (searchKey : Nat) (nd : BNode) (ids : List Nat) : Option Nat :=
  match LL.search s.ll (cellCmp s kcmp) nd.cellsList searchKey
      SearchType.LesserThanOrEqualsTo with
  | none => nd.left_most_child
  | some fc =>
    if cellCmp s kcmp searchKey (lnodeOf s.ll fc).key = 0 then
      match prevInChain ids fc none with
      | some (some p) => (cellOf s (lnodeOf s.ll p).key).right_child_node
      | some none => nd.left_most_child
      | none => nd.left_most_child
    else
      (cellOf s (lnodeOf s.ll fc).key).right_child_node

/-- The code step of the descent loop equals the step described by the
spec, on any node whose cell chain is well formed. -/
theorem descendStep_eq_specNext {K : Type} {V : Type} [Inhabited K] (s : BBState K V)
    (kcmp : K → K → Int) (searchKey : Nat) (nd : BNode)
    (hwf : wfChainB s.ll nd.cellsList = true) :
    BB.descendStep s kcmp searchKey nd
      = specNext s kcmp searchKey nd (idsOf s.ll nd.cellsList) := by
  simp only [wfChainB, Bool.and_eq_true, Option.isSome_iff_exists] at hwf
  obtain ⟨⟨ids, hids⟩, hleft⟩ := hwf
  have hidseq : idsOf s.ll nd.cellsList = ids := by
    simp [idsOf, hids]
  have hchain : chainFromB s.ll (listOf s.ll nd.cellsList).min ids = true :=
    chainList_sound s.ll (s.ll.nodes.length + 1) (listOf s.ll nd.cellsList).min ids hids
  rw [hidseq] at hleft ⊢
  unfold BB.descendStep specNext
  cases hs : LL.search s.ll (cellCmp s kcmp) nd.cellsList searchKey
      SearchType.LesserThanOrEqualsTo with
  | none => rfl
  | some fc =>
    have hmem : fc ∈ ids := search_LE_mem s.ll (cellCmp s kcmp) nd.cellsList
      searchKey ids hchain fc hs
    show (if cellCmp s kcmp searchKey (lnodeOf s.ll fc).key = 0 then
            match (lnodeOf s.ll fc).leftSibling with
            | some ls => (cellOf s (lnodeOf s.ll ls).key).right_child_node
            | none => nd.left_most_child
          else (cellOf s (lnodeOf s.ll fc).key).right_child_node)
        = (if cellCmp s kcmp searchKey (lnodeOf s.ll fc).key = 0 then
            match prevInChain ids fc none with
            | some (some p) => (cellOf s (lnodeOf s.ll p).key).right_child_node
            | some none => nd.left_most_child
            | none => nd.left_most_child
          else (cellOf s (lnodeOf s.ll fc).key).right_child_node)
    by_cases h0 : cellCmp s kcmp searchKey (lnodeOf s.ll fc).key = 0
    · rw [if_pos h0, if_pos h0]
      obtain ⟨po, hpo, hls⟩ := leftLinks_prev s.ll ids none fc hleft hmem
      rw [hpo, hls]
      cases po with
      | none => rfl
      | some p => rfl
    · rw [if_neg h0, if_neg h0]

/-- Bounded-depth well-formedness for the descent: a node is good at depth
d when it is a leaf, or (at positive depth) an interior node whose cell
chain is well formed, whose left_most_child exists and is good one level
lower, and every cell of whose chain has an existing right child that is
good one level lower. -/
def WFdownB {K : Type} {V : Type} [Inhabited K] (s : BBState K V) : Nat → Nat → Bool
  | 0, n =>
    match hGet s.bnodes n with
    | none => false
    | some nd => nd.isLeaf
  | d + 1, n =>
    match hGet s.bnodes n with
    | none => false
    | some nd =>
      if nd.isLeaf then true
      else
        wfChainB s.ll nd.cellsList &&
        (match nd.left_most_child with
         | some c => WFdownB s d c
         | none => false) &&
        (idsOf s.ll nd.cellsList).all (fun ln =>
          match hGet s.cells (lnodeOf s.ll ln).key with
          | some cell =>
            match cell.right_child_node with
            | some ch => WFdownB s d ch
            | none => false
          | none => false)

/-- At an interior well-formed node, the descent step reaches an existing
child that is well formed one level lower. -/
theorem descendStep_wf {K : Type} {V : Type} [Inhabited K] (s : BBState K V)
    (kcmp : K → K → Int) (probe : Nat) (d n : Nat) (nd : BNode)
    (hg : hGet s.bnodes n = some nd) (hleaf : nd.isLeaf = false)
    (hwf : WFdownB s (d + 1) n = true) :
    ∃ ch, BB.descendStep s kcmp probe nd = some ch ∧ WFdownB s d ch = true := by
  simp only [WFdownB, hg, hleaf] at hwf
  rw [if_neg (by simp [hleaf])] at hwf
  simp only [Bool.and_eq_true] at hwf
  obtain ⟨⟨hchainwf, hlmc⟩, hall⟩ := hwf
  have hlmcc : ∃ c, nd.left_most_child = some c ∧ WFdownB s d c = true := by
    cases hc : nd.left_most_child with
    | none => simp only [hc] at hlmc; cases hlmc
    | some c => simp only [hc] at hlmc; exact ⟨c, rfl, hlmc⟩
  have hchild : ∀ ln, ln ∈ idsOf s.ll nd.cellsList →
      ∃ ch, (cellOf s (lnodeOf s.ll ln).key).right_child_node = some ch ∧
        WFdownB s d ch = true := by
    intro ln hln
    have h := (List.all_eq_true.mp hall) ln hln
    cases hcell : hGet s.cells (lnodeOf s.ll ln).key with
    | none => simp only [hcell] at h; cases h
    | some cell =>
      simp only [hcell] at h
      cases hrc : cell.right_child_node with
      | none => simp only [hrc] at h; cases h
      | some ch =>
        simp only [hrc] at h
        refine ⟨ch, ?_, h⟩
        unfold cellOf
        rw [hcell]
        exact hrc
  -- chain facts for the search membership
  have hwf2 := hchainwf
  simp only [wfChainB, Bool.and_eq_true, Option.isSome_iff_exists] at hwf2
  obtain ⟨⟨ids, hids⟩, hleft⟩ := hwf2
  have hidseq : idsOf s.ll nd.cellsList = ids := by simp [idsOf, hids]
  have hchain : chainFromB s.ll (listOf s.ll nd.cellsList).min ids = true :=
    chainList_sound s.ll (s.ll.nodes.length + 1) (listOf s.ll nd.cellsList).min ids hids
  unfold BB.descendStep
  cases hs : LL.search s.ll (cellCmp s kcmp) nd.cellsList probe
      SearchType.LesserThanOrEqualsTo with
  | none =>
    obtain ⟨c, hc, hwfc⟩ := hlmcc
    exact ⟨c, hc, hwfc⟩
  | some fc =>
    have hmem : fc ∈ ids := search_LE_mem s.ll (cellCmp s kcmp) nd.cellsList
      probe ids hchain fc hs
    show (∃ ch, (if cellCmp s kcmp probe (lnodeOf s.ll fc).key = 0 then
            match (lnodeOf s.ll fc).leftSibling with
            | some ls => (cellOf s (lnodeOf s.ll ls).key).right_child_node
            | none => nd.left_most_child
          else (cellOf s (lnodeOf s.ll fc).key).right_child_node) = some ch ∧
          WFdownB s d ch = true)
    by_cases h0 : cellCmp s kcmp probe (lnodeOf s.ll fc).key = 0
    · rw [if_pos h0]
      rw [hidseq] at hleft
      obtain ⟨po, hpo, hls⟩ := leftLinks_prev s.ll ids none fc hleft hmem
      rw [hls]
      cases po with
      | none =>
        obtain ⟨c, hc, hwfc⟩ := hlmcc
        exact ⟨c, hc, hwfc⟩
      | some p =>
        have hpmem : p ∈ ids := by
          rcases prevInChain_mem ids fc none (some p) hpo with h | h
          · cases h
          · obtain ⟨q, hq1, hq2⟩ := h
            cases hq1
            exact hq2
        rw [← hidseq] at hpmem
        exact hchild p hpmem
    · rw [if_neg h0]
      rw [← hidseq] at hmem
      exact hchild fc hmem

/-- On a tree that is well formed down to depth d below the given node,
the descent loop reaches a leaf whenever it has more than d fuel. -/
theorem descendLoop_leaf {K : Type} {V : Type} [Inhabited K] (s : BBState K V)
    (kcmp : K → K → Int) (probe : Nat) :
    ∀ (d fuel n : Nat), WFdownB s d n = true → d < fuel →
      ∃ lf, BB.descendLoop s kcmp probe fuel (some n) = some lf ∧
        (nodeOf s lf).isLeaf = true := by
  intro d
  induction d with
  | zero =>
    intro fuel n hwf hlt
    cases fuel with
    | zero => omega
    | succ f =>
      cases hg : hGet s.bnodes n with
      | none => simp only [WFdownB, hg] at hwf; cases hwf
      | some nd =>
        simp only [WFdownB, hg] at hwf
        have hnode : nodeOf s n = nd := by unfold nodeOf; rw [hg]; rfl
        refine ⟨n, ?_, by rw [hnode]; exact hwf⟩
        show (if (nodeOf s n).isLeaf then some n
              else BB.descendLoop s kcmp probe f (BB.descendStep s kcmp probe (nodeOf s n)))
            = some n
        rw [hnode, if_pos hwf]
  | succ d ih =>
    intro fuel n hwf hlt
    cases fuel with
    | zero => omega
    | succ f =>
      cases hg : hGet s.bnodes n with
      | none => simp only [WFdownB, hg] at hwf; cases hwf
      | some nd =>
        have hnode : nodeOf s n = nd := by unfold nodeOf; rw [hg]; rfl
        by_cases hleaf : nd.isLeaf = true
        · refine ⟨n, ?_, by rw [hnode]; exact hleaf⟩
          show (if (nodeOf s n).isLeaf then some n
                else BB.descendLoop s kcmp probe f (BB.descendStep s kcmp probe (nodeOf s n)))
              = some n
          rw [hnode, if_pos hleaf]
        · obtain ⟨ch, hstep, hwfch⟩ := descendStep_wf s kcmp probe d n nd hg
            (Bool.not_eq_true _ ▸ hleaf) hwf
          obtain ⟨lf, h1, h2⟩ := ih f ch hwfch (by omega)
          refine ⟨lf, ?_, h2⟩
          show (if (nodeOf s n).isLeaf then some n
                else BB.descendLoop s kcmp probe f (BB.descendStep s kcmp probe (nodeOf s n)))
              = some lf
          rw [hnode, if_neg hleaf, hstep]
          exact h1

/-- C5.  In every non-empty tree the descent of searchForLeafNode behaves
as the spec describes at each interior node: an LE match comparing equal
sends it into the right child of the previous cell of the chain, or into
left_most_child when the matched cell is the min of the list; a strictly
smaller match sends it into the right child of the matched cell; no match
sends it into left_most_child (first conjunct, the code step equals the
step read off the spec, on any well-formed cell chain); and on a tree
whose root is well formed down to some depth the descent returns a leaf
(second conjunct). -/
theorem C5_descent :
    (∀ (K V : Type) [Inhabited K] (s : BBState K V) (kcmp : K → K → Int)
        (searchKey : Nat) (nd : BNode),
      wfChainB s.ll nd.cellsList = true →
      BB.descendStep s kcmp searchKey nd
        = specNext s kcmp searchKey nd (idsOf s.ll nd.cellsList)) ∧
    (∀ (K V : Type) [Inhabited K] (s : BBState K V) (kcmp : K → K → Int)
        (key : K) (r d : Nat),
      s.tree.root_node = some r →
      WFdownB (createBPlusCell s key none none).2 d r = true →
      d < (createBPlusCell s key none none).2.bnodes.length + 1 →
      ∃ lf, (BB.searchForLeafNode s kcmp key).1 = some lf ∧
        (nodeOf (BB.searchForLeafNode s kcmp key).2 lf).isLeaf = true) := by
  constructor
  · intro K V inst s kcmp searchKey nd hwf
    exact descendStep_eq_specNext s kcmp searchKey nd hwf
  · intro K V inst s kcmp key r d hroot hwf hfl
    obtain ⟨lf, h1, h2⟩ := descendLoop_leaf (createBPlusCell s key none none).2 kcmp
      (createBPlusCell s key none none).1 d
      ((createBPlusCell s key none none).2.bnodes.length + 1) r hwf hfl
    refine ⟨lf, ?_, ?_⟩
    · have heq : (BB.searchForLeafNode s kcmp key).1
          = BB.descendLoop (createBPlusCell s key none none).2 kcmp
            (createBPlusCell s key none none).1
            ((createBPlusCell s key none none).2.bnodes.length + 1) (some r) := by
        unfold BB.searchForLeafNode
        rw [hroot]
      rw [heq]
      exact h1
    · have heq : (BB.searchForLeafNode s kcmp key).2
          = (createBPlusCell s key none none).2 := by
        unfold BB.searchForLeafNode
        rw [hroot]
      rw [heq]
      exact h2

/-- Witness for C5 on the concrete ten-key tree: the root node 11 has a
well-formed cell chain and the step equality holds there, and the descent
for key 35 from the root (well formed to depth 2) reaches a leaf. -/
theorem C5_descent_witness :
    (BB.descendStep c6run intCmp 0 (nodeOf c6run 11)
      = specNext c6run intCmp 0 (nodeOf c6run 11)
          (idsOf c6run.ll (nodeOf c6run 11).cellsList)) ∧
    (∃ lf, (BB.searchForLeafNode c6run intCmp 35).1 = some lf ∧
      (nodeOf (BB.searchForLeafNode c6run intCmp 35).2 lf).isLeaf = true) := by
  constructor
  · exact C5_descent.1 Int Int c6run intCmp 0 (nodeOf c6run 11) (by decide)
  · exact C5_descent.2 Int Int c6run intCmp 35 11 2 (by decide) (by decide) (by decide)

/-- The JavaScript test max_node_size % 2 === 1, i.e. truncated remainder
equal to 1, holds exactly for positive odd integers. -/
theorem tmod_two_eq_one_iff (n : Int) : n.tmod 2 = 1 ↔ Odd n ∧ 0 < n := by
  cases n with
  | ofNat m =>
    have h : (Int.ofNat m).tmod 2 = Int.ofNat (m % 2) := rfl
    rw [h, Int.ofNat_eq_natCast]
    constructor
    · intro he
      have hm : m % 2 = 1 := by exact_mod_cast he
      have hodd : Odd m := Nat.odd_iff.mpr hm
      have hp : 0 < m := by omega
      rw [Int.ofNat_eq_natCast]
      exact ⟨(Int.odd_coe_nat m).mpr hodd, by exact_mod_cast hp⟩
    · rintro ⟨ho, _⟩
      rw [Int.ofNat_eq_natCast] at ho
      have hoddm : Odd m := (Int.odd_coe_nat m).mp ho
      have hm : m % 2 = 1 := Nat.odd_iff.mp hoddm
      rw [hm]; rfl
  | negSucc m =>
    constructor
    · intro he
      have h : (Int.negSucc m).tmod 2 = -Int.ofNat ((m + 1) % 2) := rfl
      rw [h] at he
      have h2 : (m + 1) % 2 = 0 ∨ (m + 1) % 2 = 1 := by omega
      rcases h2 with h2 | h2 <;> rw [h2] at he <;> exact absurd he (by decide)
    · rintro ⟨_, hp⟩
      exact absurd hp (not_lt.mpr (le_of_lt (Int.negSucc_lt_zero m)))

/-- C9 (amended).  Construction fails iff max_node_size is a positive odd
integer (the only values on which the JS test max_node_size % 2 === 1
holds); every other value — even, zero or negative, and in particular 2 —
is accepted, and on success the tree starts empty with the given
max_node_size and half_capacity = floor(max_node_size / 2). -/
theorem C9_amended_holds (n : Int) :
    (isOkB (mkBPlusTree n) = false ↔ (Odd n ∧ 0 < n)) ∧
    (∀ t : TreeData, mkBPlusTree n = Except.ok t →
      t = { max_node_size := n, half_capacity := n.fdiv 2 }) := by
  constructor
  · unfold mkBPlusTree
    by_cases h : n.tmod 2 = 1
    · rw [if_pos h]
      simp only [isOkB]
      exact ⟨fun _ => (tmod_two_eq_one_iff n).mp h, fun _ => trivial⟩
    · rw [if_neg h]
      simp only [isOkB]
      constructor
      · intro hfalse; cases hfalse
      · intro hodd; exact absurd ((tmod_two_eq_one_iff n).mpr hodd) h
  · intro t ht
    unfold mkBPlusTree at ht
    by_cases h : n.tmod 2 = 1
    · rw [if_pos h] at ht; cases ht
    · rw [if_neg h] at ht
      simp only [Except.ok.injEq] at ht
      rw [← ht]

/-- Witness for C9 (amended) at the concrete sizes 3 (rejected) and 6
(accepted with half_capacity 3). -/
theorem C9_amended_witness :
    isOkB (mkBPlusTree 3) = false ∧ isOkB (mkBPlusTree 6) = true ∧
    getOkD (mkBPlusTree 6) default = { max_node_size := 6, half_capacity := 3 } := by
  refine ⟨?_, ?_, ?_⟩
  · exact ((C9_amended_holds 3).1).mpr ⟨Int.odd_iff.mpr (by decide), by decide⟩
  · cases hb : isOkB (mkBPlusTree 6) with
    | false => exact absurd (Int.odd_iff.mp ((C9_amended_holds 6).1.mp hb).1) (by decide)
    | true => rfl
  · have h2 := (C9_amended_holds 6).2 (getOkD (mkBPlusTree 6) default) (by rfl)
    rw [h2]
    decide

/-- LL.deleteNode changes nothing and returns none when the EQ search
misses. -/
theorem deleteNode_miss {A : Type} [Inhabited A] (s : LLState A) (cmp : A → A → Int)
    (listId : Nat) (key : A)
    (h : LL.search s cmp listId key SearchType.EqualsTo = none) :
    LL.deleteNode s cmp listId key = (none, s) := by
  unfold LL.deleteNode
  rw [h]

/-- searchForLeafNode only allocates the probe cell: the tree record, the
node heap and the whole list layer are untouched. -/
theorem searchForLeafNode_parts {K V : Type} [Inhabited K] (s : BBState K V)
    (kcmp : K → K → Int) (key : K) :
    (BB.searchForLeafNode s kcmp key).2.tree = s.tree ∧
    (BB.searchForLeafNode s kcmp key).2.bnodes = s.bnodes ∧
    (BB.searchForLeafNode s kcmp key).2.ll = s.ll := by
  unfold BB.searchForLeafNode
  cases s.tree.root_node <;> exact ⟨rfl, rfl, rfl⟩

/-- C10.  Deleting a key that is absent from the located leaf of a rooted
tree: both deleteKey and deleteKeyReturnValue return nothing, and the
resulting state keeps the tree record (size, root, leftmost and rightmost
leaves), the node heap (hence the leaf chain) and the entire list layer
(hence every node's cell list) exactly as before; the only trace of the
call is the pair of unreferenced probe cells it allocated. -/
theorem C10_delete_absent_noop {K V : Type} [Inhabited K] (fuel : Nat)
    (s : BBState K V) (kcmp : K → K → Int) (key : K) (r lf probe : Nat)
    (s1 s2 : BBState K V)
    (hroot : s.tree.root_node = some r)
    (hsearch : BB.searchForLeafNode s kcmp key = (some lf, s1))
    (hprobe : createBPlusCell s1 key none none = (probe, s2))
    (hmiss : LL.search s2.ll (cellCmp s2 kcmp) (nodeOf s2 lf).cellsList probe
      SearchType.EqualsTo = none) :
    (BB.deleteKey fuel s kcmp key = Except.ok (none, s2) ∧
      s2.tree = s.tree ∧ s2.bnodes = s.bnodes ∧ s2.ll = s.ll) ∧
    (BB.deleteKeyReturnValue fuel s kcmp key = Except.ok (none, s2) ∧
      s2.tree = s.tree ∧ s2.bnodes = s.bnodes ∧ s2.ll = s.ll) := by
  have hs1 : (BB.searchForLeafNode s kcmp key).2 = s1 := congrArg Prod.snd hsearch
  have hs2 : (createBPlusCell s1 key none none).2 = s2 := congrArg Prod.snd hprobe
  have hparts := searchForLeafNode_parts s kcmp key
  have htree : s2.tree = s.tree := by
    rw [← hs2, ← hs1]; exact hparts.1
  have hbnodes : s2.bnodes = s.bnodes := by
    rw [← hs2, ← hs1]; exact hparts.2.1
  have hll : s2.ll = s.ll := by
    rw [← hs2, ← hs1]; exact hparts.2.2
  refine ⟨⟨?_, htree, hbnodes, hll⟩, ⟨?_, htree, hbnodes, hll⟩⟩
  · unfold BB.deleteKey
    simp only [hroot, hsearch, hprobe]
    rw [deleteNode_miss s2.ll (cellCmp s2 kcmp) (nodeOf s2 lf).cellsList probe hmiss]
  · unfold BB.deleteKeyReturnValue
    simp only [hroot, hsearch, hprobe]
    rw [deleteNode_miss s2.ll (cellCmp s2 kcmp) (nodeOf s2 lf).cellsList probe hmiss]

/-- The state after resolving the leaf for the absent key 99 in the
one-key tree. -/
def c10s1 : BBState Int Int := (BB.searchForLeafNode c8oneRun intCmp 99).2

/-- The state after the delete probe allocation. -/
def c10s2 : BBState Int Int := (createBPlusCell c10s1 99 none none).2

/-- Witness for C10: deleting the absent key 99 from the one-key tree
returns nothing and leaves tree, node heap and list layer unchanged. -/
theorem C10_delete_absent_noop_witness :
    (BB.deleteKey 20 c8oneRun intCmp 99 = Except.ok (none, c10s2) ∧
      c10s2.tree = c8oneRun.tree ∧ c10s2.bnodes = c8oneRun.bnodes ∧
      c10s2.ll = c8oneRun.ll) ∧
    (BB.deleteKeyReturnValue 20 c8oneRun intCmp 99 = Except.ok (none, c10s2) ∧
      c10s2.tree = c8oneRun.tree ∧ c10s2.bnodes = c8oneRun.bnodes ∧
      c10s2.ll = c8oneRun.ll) :=
  C10_delete_absent_noop 20 c8oneRun intCmp 99 0 0
    (createBPlusCell c10s1 99 none none).1 c10s1 c10s2
    (by decide) (by rfl) (by rfl) (by decide)
